import Mathlib

/-!
# PreviewsLogger (components/previews/core/previews_logger.cc)

A shallow embedding of the previews event logger and proofs about its bounded
queues, its attach-time replay and its observer fan-out.

Modelling conventions.

* `base::Time` is an integer tick count; only `<` is used on it by the code.
* `GURL` is represented by its spec string; the logger only copies it.
* A `PreviewsLoggerObserver*` is an opaque identity, here a natural number.
  Observers are passive: a callback does not call back into the logger.  Every
  callback the logger makes is recorded, in order, as a `Delivery` together
  with the logger state at the moment of the call.
* `DCHECK_GE` is modelled with debug-build semantics: a failing check aborts
  the call (`none`).  `DCHECK_CALLED_ON_VALID_SEQUENCE` is a precondition on
  the caller and is not modelled.
* `PreviewsType` and `GetStringNameForType` are declared outside
  `previews_logger.cc`; the name table is a parameter of everything that
  formats a description.
-/

namespace previews

/-- Integer tick count standing for `base::Time`. -/
abbrev Time := Int

/-- Identity of a `PreviewsLoggerObserver*`. -/
abbrev Observer := Nat

/-- Integer value of a `previews::PreviewsType` enumerator. -/
abbrev PreviewsType := Nat

/-- The twelve enumerators handled by the switch in `GetReasonDescription`. -/
inductive PreviewsEligibilityReason where
  | ALLOWED
  | BLACKLIST_UNAVAILABLE
  | BLACKLIST_DATA_NOT_LOADED
  | USER_RECENTLY_OPTED_OUT
  | USER_BLACKLISTED
  | HOST_BLACKLISTED
  | NETWORK_QUALITY_UNAVAILABLE
  | NETWORK_NOT_SLOW
  | RELOAD_DISALLOWED
  | HOST_BLACKLISTED_BY_SERVER
  | HOST_NOT_WHITELISTED_BY_SERVER
  | ALLOWED_WITHOUT_OPTIMIZATION_HINTS
  deriving DecidableEq, Repr

/-- Record `PreviewsLogger::MessageLog`. -/
structure MessageLog where
  event_type : String
  event_description : String
  url : String
  time : Time
  deriving DecidableEq, Repr

def kPreviewDecisionMadeEventType : String := "Decision"

def kPreviewNavigationEventType : String := "Navigation"

def kMaximumNavigationLogs : Nat := 10

def kMaximumDecisionLogs : Nat := 25

/-- What a `%s` conversion reads from `std::string::c_str()`: the characters
before the first NUL. -/
def c_str (s : String) : String :=
  String.mk (s.data.takeWhile (fun c => c != Char.ofNat 0))

/-- `base::StringPrintf("%s preview - user opt-out: %s", ...)`. -/
def GetDescriptionForPreviewsNavigation (GetStringNameForType : PreviewsType → String)
    (type : PreviewsType) (opt_out : Bool) : String :=
  c_str (GetStringNameForType type) ++ " preview - user opt-out: " ++
    (if opt_out then "True" else "False")

/-- The switch of `GetReasonDescription`; every enumerator returns from its
own case, so the trailing `NOTREACHED(); return "";` has no branch here. -/
def GetReasonDescription : PreviewsEligibilityReason → String
  | .ALLOWED => "Allowed"
  | .BLACKLIST_UNAVAILABLE => "Blacklist failed to be created"
  | .BLACKLIST_DATA_NOT_LOADED => "Blacklist not loaded from disk yet"
  | .USER_RECENTLY_OPTED_OUT => "User recently opted out"
  | .USER_BLACKLISTED => "All previews are blacklisted"
  | .HOST_BLACKLISTED => "All previews on this host are blacklisted"
  | .NETWORK_QUALITY_UNAVAILABLE => "Network quality unavailable"
  | .NETWORK_NOT_SLOW => "Network not slow"
  | .RELOAD_DISALLOWED => "Page reloads do not show previews for this preview type"
  | .HOST_BLACKLISTED_BY_SERVER => "Host blacklisted by server rules"
  | .HOST_NOT_WHITELISTED_BY_SERVER => "Host not whitelisted by server rules"
  | .ALLOWED_WITHOUT_OPTIMIZATION_HINTS => "Allowed (but without server rule check)"

/-- `base::StringPrintf("%s preview - %s", ...)`. -/
def GetDescriptionForPreviewsDecision (GetStringNameForType : PreviewsType → String)
    (reason : PreviewsEligibilityReason) (type : PreviewsType) : String :=
  c_str (GetStringNameForType type) ++ " preview - " ++ c_str (GetReasonDescription reason)

/-- Data members of `PreviewsLogger`.  The two `std::list<MessageLog>` queues
are lists with the oldest record first; `blacklisted_hosts_` lists the entries
of the `std::unordered_map` in its iteration order; `observer_list_` lists the
registered observers in iteration order. -/
structure PreviewsLogger where
  navigations_logs_ : List MessageLog
  decisions_logs_ : List MessageLog
  blacklisted_hosts_ : List (String × Time)
  user_blacklisted_status_ : Bool
  blacklist_ignored_ : Bool
  observer_list_ : List Observer
  deriving DecidableEq, Repr

/-- The six operations of `PreviewsLoggerObserver`. -/
inductive Callback where
  | OnNewMessageLogAdded (message : MessageLog)
  | OnNewBlacklistedHost (host : String) (time : Time)
  | OnUserBlacklistedStatusChange (blacklisted : Bool)
  | OnBlacklistCleared (time : Time)
  | OnIgnoreBlacklistDecisionStatusChanged (ignored : Bool)
  | OnLastObserverRemove
  deriving DecidableEq, Repr

/-- One callback made by the logger: the receiver, the call with its
arguments, and the logger state while the callback runs. -/
structure Delivery where
  observer : Observer
  callback : Callback
  logger : PreviewsLogger
  deriving DecidableEq, Repr

/-- Receiver and call of every delivery, in order. -/
def calls (trace : List Delivery) : List (Observer × Callback) :=
  trace.map (fun d => (d.observer, d.callback))

/-- The records passed to `OnNewMessageLogAdded` on `observer`, in order. -/
def messagesTo (observer : Observer) (trace : List Delivery) : List MessageLog :=
  trace.filterMap (fun d =>
    match d.callback with
    | .OnNewMessageLogAdded m => if d.observer = observer then some m else none
    | _ => none)

/-- Constructor `PreviewsLogger::PreviewsLogger() : blacklist_ignored_(false)`.
The containers start empty.  `user_blacklisted_status_` is not named in the
initialiser list, so its starting value is an argument. -/
def PreviewsLogger.fresh (user_blacklisted_status : Bool) : PreviewsLogger :=
  { navigations_logs_ := []
    decisions_logs_ := []
    blacklisted_hosts_ := []
    user_blacklisted_status_ := user_blacklisted_status
    blacklist_ignored_ := false
    observer_list_ := [] }

/-- Modelled from the spec: `base::ObserverList::AddObserver`, from
`base/observer_list.h`, which `previews_logger.cc` only uses.  The registry is
a set iterated in attach order: a new observer goes to the back, one already
present is not added again. -/
def AddObserver (observer_list : List Observer) (observer : Observer) : List Observer :=
  if observer ∈ observer_list then observer_list else observer_list ++ [observer]

/-- Modelled from the spec: `base::ObserverList::RemoveObserver`, from
`base/observer_list.h`, which `previews_logger.cc` only uses.  The observer is
taken out of the registry if it is there; the others keep their order. -/
def RemoveObserverFromList (observer_list : List Observer) (observer : Observer) :
    List Observer :=
  observer_list.erase observer

/-- Assignment `blacklisted_hosts_[host] = time` on the `std::unordered_map`,
whose iteration order is implementation-defined: an existing key keeps its
place and gets the new time, a new key is listed last. -/
def hostsAssign : List (String × Time) → String → Time → List (String × Time)
  | [], host, time => [(host, time)]
  | (h, t) :: rest, host, time =>
    if h = host then (h, time) :: rest else (h, t) :: hostsAssign rest host time

/-- One iteration of the `while` loop in `AddAndNotifyObserver`, on the parts
of the two queues from the cursors on: `none` when the loop condition is
false, else the record passed to `OnNewMessageLogAdded` and the two parts after
the cursor that was advanced. -/
def replayStep :
    List MessageLog → List MessageLog → Option (MessageLog × List MessageLog × List MessageLog)
  | [], [] => none
  | [], d :: ds => some (d, [], ds)
  | n :: ns, [] => some (n, ns, [])
  | n :: ns, d :: ds =>
    if n.time < d.time then some (n, ns, d :: ds) else some (d, n :: ns, ds)

/-- The `while` loop in `AddAndNotifyObserver`: the records passed to
`OnNewMessageLogAdded`, in order. -/
def mergeLogs (navigation decision : List MessageLog) : List MessageLog :=
  match h : replayStep navigation decision with
  | none => []
  | some (m, navigation_rest, decision_rest) => m :: mergeLogs navigation_rest decision_rest
termination_by navigation.length + decision.length
decreasing_by
  simp_wf
  cases navigation with
  | nil =>
    cases decision with
    | nil => simp [replayStep] at h
    | cons d ds =>
      simp only [replayStep, Option.some.injEq, Prod.mk.injEq] at h
      obtain ⟨_, h1, h2⟩ := h
      subst h1 h2
      simp
  | cons n ns =>
    cases decision with
    | nil =>
      simp only [replayStep, Option.some.injEq, Prod.mk.injEq] at h
      obtain ⟨_, h1, h2⟩ := h
      subst h1 h2
      simp
    | cons d ds =>
      simp only [replayStep] at h
      split at h
      · simp only [Option.some.injEq, Prod.mk.injEq] at h
        obtain ⟨_, h1, h2⟩ := h
        subst h1 h2
        simp
      · simp only [Option.some.injEq, Prod.mk.injEq] at h
        obtain ⟨_, h1, h2⟩ := h
        subst h1 h2
        simp

/-- `PreviewsLogger::AddAndNotifyObserver`. -/
def AddAndNotifyObserver (observer : Observer) (s : PreviewsLogger) :
    PreviewsLogger × List Delivery :=
  let s1 := { s with observer_list_ := AddObserver s.observer_list_ observer }
  (s1,
    [Delivery.mk observer (.OnIgnoreBlacklistDecisionStatusChanged s1.blacklist_ignored_) s1]
      ++ (mergeLogs s1.navigations_logs_ s1.decisions_logs_).map
          (fun m => Delivery.mk observer (.OnNewMessageLogAdded m) s1)
      ++ [Delivery.mk observer (.OnUserBlacklistedStatusChange s1.user_blacklisted_status_) s1]
      ++ s1.blacklisted_hosts_.map
          (fun entry => Delivery.mk observer (.OnNewBlacklistedHost entry.1 entry.2) s1))

/-- `PreviewsLogger::RemoveObserver`. -/
def RemoveObserver (observer : Observer) (s : PreviewsLogger) :
    PreviewsLogger × List Delivery :=
  let s1 := { s with observer_list_ := RemoveObserverFromList s.observer_list_ observer }
  (s1, if s1.observer_list_.isEmpty then [Delivery.mk observer .OnLastObserverRemove s1] else [])

/-- `PreviewsLogger::LogMessage`: one callback per registered observer. -/
def LogMessage (s : PreviewsLogger) (event_type event_description url : String)
    (time : Time) : List Delivery :=
  s.observer_list_.map (fun observer =>
    Delivery.mk observer
      (.OnNewMessageLogAdded (MessageLog.mk event_type event_description url time)) s)

/-- `PreviewsLogger::LogPreviewNavigation`. -/
def LogPreviewNavigation (GetStringNameForType : PreviewsType → String)
    (url : String) (type : PreviewsType) (opt_out : Bool) (time : Time)
    (s : PreviewsLogger) : Option (PreviewsLogger × List Delivery) :=
  if kMaximumNavigationLogs ≥ s.navigations_logs_.length then
    let description := GetDescriptionForPreviewsNavigation GetStringNameForType type opt_out
    let trace := LogMessage s kPreviewNavigationEventType description url time
    let logs :=
      if s.navigations_logs_.length ≥ kMaximumNavigationLogs then s.navigations_logs_.tail
      else s.navigations_logs_
    some ({ s with navigations_logs_ :=
              logs ++ [MessageLog.mk kPreviewNavigationEventType description url time] },
          trace)
  else none

/-- `PreviewsLogger::LogPreviewDecisionMade`. -/
def LogPreviewDecisionMade (GetStringNameForType : PreviewsType → String)
    (reason : PreviewsEligibilityReason) (url : String) (time : Time) (type : PreviewsType)
    (s : PreviewsLogger) : Option (PreviewsLogger × List Delivery) :=
  if kMaximumDecisionLogs ≥ s.decisions_logs_.length then
    let description := GetDescriptionForPreviewsDecision GetStringNameForType reason type
    let trace := LogMessage s kPreviewDecisionMadeEventType description url time
    let logs :=
      if s.decisions_logs_.length ≥ kMaximumDecisionLogs then s.decisions_logs_.tail
      else s.decisions_logs_
    some ({ s with decisions_logs_ :=
              logs ++ [MessageLog.mk kPreviewDecisionMadeEventType description url time] },
          trace)
  else none

/-- `PreviewsLogger::OnNewBlacklistedHost`: assign, then notify. -/
def OnNewBlacklistedHost (host : String) (time : Time) (s : PreviewsLogger) :
    PreviewsLogger × List Delivery :=
  let s1 := { s with blacklisted_hosts_ := hostsAssign s.blacklisted_hosts_ host time }
  (s1, s1.observer_list_.map (fun observer =>
    Delivery.mk observer (.OnNewBlacklistedHost host time) s1))

/-- `PreviewsLogger::OnUserBlacklistedStatusChange`: notify, then assign. -/
def OnUserBlacklistedStatusChange (blacklisted : Bool) (s : PreviewsLogger) :
    PreviewsLogger × List Delivery :=
  ({ s with user_blacklisted_status_ := blacklisted },
    s.observer_list_.map (fun observer =>
      Delivery.mk observer (.OnUserBlacklistedStatusChange blacklisted) s))

/-- `PreviewsLogger::OnBlacklistCleared`: notify, then clear. -/
def OnBlacklistCleared (time : Time) (s : PreviewsLogger) :
    PreviewsLogger × List Delivery :=
  ({ s with blacklisted_hosts_ := [] },
    s.observer_list_.map (fun observer =>
      Delivery.mk observer (.OnBlacklistCleared time) s))

/-- `PreviewsLogger::OnIgnoreBlacklistDecisionStatusChanged`: assign, then
notify. -/
def OnIgnoreBlacklistDecisionStatusChanged (ignored : Bool) (s : PreviewsLogger) :
    PreviewsLogger × List Delivery :=
  let s1 := { s with blacklist_ignored_ := ignored }
  (s1, s1.observer_list_.map (fun observer =>
    Delivery.mk observer (.OnIgnoreBlacklistDecisionStatusChanged ignored) s1))

/-- A call of one of the eight public member functions, with its arguments. -/
inductive Call where
  | AddAndNotifyObserver (observer : Observer)
  | RemoveObserver (observer : Observer)
  | LogPreviewNavigation (url : String) (type : PreviewsType) (opt_out : Bool) (time : Time)
  | LogPreviewDecisionMade (reason : PreviewsEligibilityReason) (url : String) (time : Time)
      (type : PreviewsType)
  | OnNewBlacklistedHost (host : String) (time : Time)
  | OnUserBlacklistedStatusChange (blacklisted : Bool)
  | OnBlacklistCleared (time : Time)
  | OnIgnoreBlacklistDecisionStatusChanged (ignored : Bool)
  deriving DecidableEq, Repr

/-- Effect of one public call: the new state and the callbacks made, or `none`
when a `DCHECK` of the call fails. -/
def step (GetStringNameForType : PreviewsType → String) :
    Call → PreviewsLogger → Option (PreviewsLogger × List Delivery)
  | .AddAndNotifyObserver observer, s => some (AddAndNotifyObserver observer s)
  | .RemoveObserver observer, s => some (RemoveObserver observer s)
  | .LogPreviewNavigation url type opt_out time, s =>
    LogPreviewNavigation GetStringNameForType url type opt_out time s
  | .LogPreviewDecisionMade reason url time type, s =>
    LogPreviewDecisionMade GetStringNameForType reason url time type s
  | .OnNewBlacklistedHost host time, s => some (OnNewBlacklistedHost host time s)
  | .OnUserBlacklistedStatusChange blacklisted, s =>
    some (OnUserBlacklistedStatusChange blacklisted s)
  | .OnBlacklistCleared time, s => some (OnBlacklistCleared time s)
  | .OnIgnoreBlacklistDecisionStatusChanged ignored, s =>
    some (OnIgnoreBlacklistDecisionStatusChanged ignored s)

/-- Effect of a sequence of public calls, made one after the other. -/
def run (GetStringNameForType : PreviewsType → String) :
    List Call → PreviewsLogger → Option (PreviewsLogger × List Delivery)
  | [], s => some (s, [])
  | c :: cs, s =>
    match step GetStringNameForType c s with
    | none => none
    | some (s1, t1) =>
      match run GetStringNameForType cs s1 with
      | none => none
      | some (s2, t2) => some (s2, t1 ++ t2)

/-- Timestamps do not decrease along the list. -/
def TimeOrdered (logs : List MessageLog) : Prop :=
  logs.Pairwise (fun a b => a.time ≤ b.time)

/-- Arguments `(url, type, opt_out, time)` of a `LogPreviewNavigation` call. -/
abbrev NavigationArgs := String × PreviewsType × Bool × Time

/-- Arguments `(reason, url, time, type)` of a `LogPreviewDecisionMade` call. -/
abbrev DecisionArgs := PreviewsEligibilityReason × String × Time × PreviewsType

def navigationCall (a : NavigationArgs) : Call :=
  .LogPreviewNavigation a.1 a.2.1 a.2.2.1 a.2.2.2

def decisionCall (a : DecisionArgs) : Call :=
  .LogPreviewDecisionMade a.1 a.2.1 a.2.2.1 a.2.2.2

/-- The record `LogPreviewNavigation` makes from its arguments. -/
def navigationRecord (GetStringNameForType : PreviewsType → String) (a : NavigationArgs) :
    MessageLog :=
  MessageLog.mk kPreviewNavigationEventType
    (GetDescriptionForPreviewsNavigation GetStringNameForType a.2.1 a.2.2.1) a.1 a.2.2.2

/-- The record `LogPreviewDecisionMade` makes from its arguments. -/
def decisionRecord (GetStringNameForType : PreviewsType → String) (a : DecisionArgs) :
    MessageLog :=
  MessageLog.mk kPreviewDecisionMadeEventType
    (GetDescriptionForPreviewsDecision GetStringNameForType a.1 a.2.2.2) a.2.1 a.2.2.1

/-- The size bounds that the two `DCHECK_GE` lines test. -/
def WithinCapacity (s : PreviewsLogger) : Prop :=
  s.navigations_logs_.length ≤ kMaximumNavigationLogs ∧
    s.decisions_logs_.length ≤ kMaximumDecisionLogs

/-- A navigation record at time `t`, as `LogPreviewNavigation` stores it. -/
def navigationAt (t : Time) : MessageLog :=
  navigationRecord (fun _ => "LoFi") ("https://a.test/", 2, false, t)

/-- A decision record at time `t`, as `LogPreviewDecisionMade` stores it. -/
def decisionAt (t : Time) : MessageLog :=
  decisionRecord (fun _ => "LoFi") (.ALLOWED, "https://a.test/", t, 2)

/-- Logger with navigation records at times 1, 3, 5 and decision records at
times 2, 3, 6. -/
def replayExample : PreviewsLogger :=
  { PreviewsLogger.fresh false with
    navigations_logs_ := [navigationAt 1, navigationAt 3, navigationAt 5]
    decisions_logs_ := [decisionAt 2, decisionAt 3, decisionAt 6] }

/-- Logger with both queues at capacity (10 navigation records, 25 decision
records) and the observers 3 and 5 registered in that order. -/
def fullExample : PreviewsLogger :=
  { PreviewsLogger.fresh false with
    navigations_logs_ := (List.range 10).map (fun i => navigationAt (Int.ofNat i))
    decisions_logs_ := (List.range 25).map (fun i => decisionAt (Int.ofNat i))
    observer_list_ := [3, 5] }

/-- The time stored for `host` in the host map, as `blacklisted_hosts_.find`
would read it. -/
def hostsFind : List (String × Time) → String → Option Time
  | [], _ => none
  | (h, t) :: rest, host => if h = host then some t else hostsFind rest host

/-- Logger with two blacklisted hosts, the user-blacklisted flag unset and
the observers 3 and 5 registered in that order. -/
def blacklistExample : PreviewsLogger :=
  { PreviewsLogger.fresh false with
    blacklisted_hosts_ := [("a.test", 5), ("b.test", 8)]
    observer_list_ := [3, 5] }

/-- A call of `OnNewBlacklistedHost` or of `OnBlacklistCleared`. -/
inductive BlacklistOp where
  | newHost (host : String) (time : Time)
  | cleared (time : Time)
  deriving DecidableEq, Repr

def BlacklistOp.toCall : BlacklistOp → Call
  | .newHost host time => Call.OnNewBlacklistedHost host time
  | .cleared time => Call.OnBlacklistCleared time

/-- What `OnNewBlacklistedHost` and `OnBlacklistCleared` do to the host map. -/
def applyBlacklistOp (hosts : List (String × Time)) : BlacklistOp → List (String × Time)
  | .newHost host time => hostsAssign hosts host time
  | .cleared _ => []

/-- Reading of a call history, newest call first: the time of the latest
report of `host`, unless a clear came after it. -/
def lastReportNewestFirst : List BlacklistOp → String → Option Time
  | [], _ => none
  | .cleared _ :: _, _ => none
  | .newHost h t :: older, host => if h = host then some t else lastReportNewestFirst older host

/-- For a call history in call order: the time of the latest
`OnNewBlacklistedHost` call for `host` since the most recent
`OnBlacklistCleared`, if `host` was reported since then. -/
def lastReport (ops : List BlacklistOp) (host : String) : Option Time :=
  lastReportNewestFirst ops.reverse host

/-- The `(host, time)` arguments of the `OnNewBlacklistedHost` callbacks made
on `observer`, in order. -/
def hostEntriesTo (observer : Observer) (trace : List Delivery) : List (String × Time) :=
  trace.filterMap (fun d =>
    match d.callback with
    | .OnNewBlacklistedHost host time => if d.observer = observer then some (host, time) else none
    | _ => none)

/-- The `switch` of `GetReasonDescription` read on the integer value of its
argument.  `value` gives the integer value of each enumerator (the enum is
declared outside `previews_logger.cc`); the case labels are tried in the order
of the source, and a value equal to no label leaves the `switch` and reaches
`NOTREACHED(); return "";`. -/
def GetReasonDescriptionOfValue (value : PreviewsEligibilityReason → Int) (v : Int) : String :=
  if v = value .ALLOWED then "Allowed"
  else if v = value .BLACKLIST_UNAVAILABLE then "Blacklist failed to be created"
  else if v = value .BLACKLIST_DATA_NOT_LOADED then "Blacklist not loaded from disk yet"
  else if v = value .USER_RECENTLY_OPTED_OUT then "User recently opted out"
  else if v = value .USER_BLACKLISTED then "All previews are blacklisted"
  else if v = value .HOST_BLACKLISTED then "All previews on this host are blacklisted"
  else if v = value .NETWORK_QUALITY_UNAVAILABLE then "Network quality unavailable"
  else if v = value .NETWORK_NOT_SLOW then "Network not slow"
  else if v = value .RELOAD_DISALLOWED then
    "Page reloads do not show previews for this preview type"
  else if v = value .HOST_BLACKLISTED_BY_SERVER then "Host blacklisted by server rules"
  else if v = value .HOST_NOT_WHITELISTED_BY_SERVER then
    "Host not whitelisted by server rules"
  else if v = value .ALLOWED_WITHOUT_OPTIMIZATION_HINTS then
    "Allowed (but without server rule check)"
  else ""

/-- A numbering of the enumerators, 0 to 11 in the order of the case labels,
used as an example of `value`. -/
def reasonOrdinal : PreviewsEligibilityReason → Int
  | .ALLOWED => 0
  | .BLACKLIST_UNAVAILABLE => 1
  | .BLACKLIST_DATA_NOT_LOADED => 2
  | .USER_RECENTLY_OPTED_OUT => 3
  | .USER_BLACKLISTED => 4
  | .HOST_BLACKLISTED => 5
  | .NETWORK_QUALITY_UNAVAILABLE => 6
  | .NETWORK_NOT_SLOW => 7
  | .RELOAD_DISALLOWED => 8
  | .HOST_BLACKLISTED_BY_SERVER => 9
  | .HOST_NOT_WHITELISTED_BY_SERVER => 10
  | .ALLOWED_WITHOUT_OPTIMIZATION_HINTS => 11

/-- The output `out` takes every record of `nav` and every record of `dec`
once, each list in its own order. -/
inductive Interleaving : List MessageLog → List MessageLog → List MessageLog → Prop where
  | done : Interleaving [] [] []
  | navigation (m : MessageLog) {nav dec out : List MessageLog} :
      Interleaving nav dec out → Interleaving (m :: nav) dec (m :: out)
  | decision (m : MessageLog) {nav dec out : List MessageLog} :
      Interleaving nav dec out → Interleaving nav (m :: dec) (m :: out)

/-- The first `count` iterations of the `while` loop in
`AddAndNotifyObserver` (fewer if the loop condition becomes false earlier):
the records delivered so far and the parts of the two queues from the cursors
on. -/
def replayIterations :
    Nat → List MessageLog → List MessageLog →
      List MessageLog × List MessageLog × List MessageLog
  | 0, nav, dec => ([], nav, dec)
  | count + 1, nav, dec =>
    match replayStep nav dec with
    | none => ([], nav, dec)
    | some (m, nav1, dec1) =>
      ((m :: (replayIterations count nav1 dec1).1), (replayIterations count nav1 dec1).2)

/-- Arguments of a `LogPreviewNavigation` call (left) or of a
`LogPreviewDecisionMade` call (right). -/
abbrev LogArgs := NavigationArgs ⊕ DecisionArgs

def logCall : LogArgs → Call
  | .inl a => navigationCall a
  | .inr a => decisionCall a

/-- The `time` argument of a log call. -/
def logTime : LogArgs → Time
  | .inl a => a.2.2.2
  | .inr a => a.2.2.1

/-- The record a log call makes from its arguments. -/
def logRecord (GetStringNameForType : PreviewsType → String) : LogArgs → MessageLog
  | .inl a => navigationRecord GetStringNameForType a
  | .inr a => decisionRecord GetStringNameForType a

/-- The `LogPreviewNavigation` calls of a sequence of log calls, in order. -/
def navigationArgsOf : List LogArgs → List NavigationArgs
  | [] => []
  | .inl a :: rest => a :: navigationArgsOf rest
  | .inr _ :: rest => navigationArgsOf rest

/-- The `LogPreviewDecisionMade` calls of a sequence of log calls, in order. -/
def decisionArgsOf : List LogArgs → List DecisionArgs
  | [] => []
  | .inl _ :: rest => decisionArgsOf rest
  | .inr a :: rest => a :: decisionArgsOf rest

/-- The records passed to `OnNewMessageLogAdded` on `observer`, read from the
list of receivers and calls. -/
def messagesIn (observer : Observer) (cs : List (Observer × Callback)) : List MessageLog :=
  cs.filterMap (fun c =>
    match c.2 with
    | .OnNewMessageLogAdded m => if c.1 = observer then some m else none
    | _ => none)

/-- The callbacks of a live broadcast of each of `records`, one after the
other, to `observers`. -/
def fanOut (observers : List Observer) : List MessageLog → List (Observer × Callback)
  | [] => []
  | m :: ms =>
    observers.map (fun o => (o, Callback.OnNewMessageLogAdded m)) ++ fanOut observers ms

/-- Three log calls at times 1, 2, 3: a decision, a navigation, a decision. -/
def liveExample : List LogArgs :=
  [.inr (.ALLOWED, "https://a.test/", 1, 2), .inl ("https://a.test/", 2, false, 2),
    .inr (.NETWORK_NOT_SLOW, "https://b.test/", 3, 2)]

/-! ## Shared lemmas -/

theorem mergeLogs_nil_nil : mergeLogs [] [] = [] := by
  rw [mergeLogs]; simp [replayStep]

theorem mergeLogs_nil_cons (d : MessageLog) (ds : List MessageLog) :
    mergeLogs [] (d :: ds) = d :: mergeLogs [] ds := by
  rw [mergeLogs]; simp [replayStep]

theorem mergeLogs_cons_nil (n : MessageLog) (ns : List MessageLog) :
    mergeLogs (n :: ns) [] = n :: mergeLogs ns [] := by
  rw [mergeLogs]; simp [replayStep]

theorem mergeLogs_cons_cons (n d : MessageLog) (ns ds : List MessageLog) :
    mergeLogs (n :: ns) (d :: ds) =
      if n.time < d.time then n :: mergeLogs ns (d :: ds) else d :: mergeLogs (n :: ns) ds := by
  rw [mergeLogs]
  split
  · next heq => by_cases h : n.time < d.time <;> simp [replayStep, h] at heq
  · next m a b heq =>
    by_cases h : n.time < d.time
    · simp only [replayStep, h, if_true, Option.some.injEq, Prod.mk.injEq] at heq
      obtain ⟨h0, h1, h2⟩ := heq
      subst h0 h1 h2
      simp [h]
    · simp only [replayStep, h, if_false, Option.some.injEq, Prod.mk.injEq] at heq
      obtain ⟨h0, h1, h2⟩ := heq
      subst h0 h1 h2
      simp [h]

/-- Pop the front when full, then append: what both log functions do to their
queue, written on a list with capacity `cap`. -/
theorem push_eq_drop (cap : Nat) (hcap : 0 < cap) (l : List MessageLog) (r : MessageLog)
    (hl : l.length ≤ cap) :
    (if l.length ≥ cap then l.tail else l) ++ [r]
      = (l ++ [r]).drop ((l ++ [r]).length - cap) := by
  by_cases h : l.length ≥ cap
  · have hlen : l.length = cap := le_antisymm hl h
    cases l with
    | nil => simp at hlen; omega
    | cons x xs =>
      simp only [List.length_cons] at hlen
      simp [hlen.symm]
  · have h0 : (l ++ [r]).length - cap = 0 := by
      simp only [List.length_append, List.length_singleton]; omega
    rw [h0, if_neg h, List.drop_zero]

theorem drop_push_eq_drop (cap : Nat) (hcap : 0 < cap) (l : List MessageLog) (r : MessageLog) :
    (if (l.drop (l.length - cap)).length ≥ cap then (l.drop (l.length - cap)).tail
      else l.drop (l.length - cap)) ++ [r]
      = (l ++ [r]).drop ((l ++ [r]).length - cap) := by
  have hle : (l.drop (l.length - cap)).length ≤ cap := by
    rw [List.length_drop]; omega
  rw [push_eq_drop cap hcap _ r hle]
  simp only [List.length_append, List.length_drop, List.length_singleton]
  rw [List.drop_append_of_le_length (by rw [List.length_drop]; omega),
    List.drop_append_of_le_length (by omega), List.drop_drop]
  congr 2
  omega

theorem run_append (name : PreviewsType → String) (cs ds : List Call)
    (s s1 s2 : PreviewsLogger) (t1 t2 : List Delivery)
    (h1 : run name cs s = some (s1, t1)) (h2 : run name ds s1 = some (s2, t2)) :
    run name (cs ++ ds) s = some (s2, t1 ++ t2) := by
  induction cs generalizing s t1 with
  | nil =>
    simp only [run, Option.some.injEq, Prod.mk.injEq] at h1
    obtain ⟨rfl, rfl⟩ := h1
    simpa using h2
  | cons c cs ih =>
    simp only [run] at h1
    cases hc : step name c s with
    | none => simp [hc] at h1
    | some r =>
      obtain ⟨sa, ta⟩ := r
      simp only [hc] at h1
      cases hr : run name cs sa with
      | none => simp [hr] at h1
      | some r2 =>
        obtain ⟨sb, tb⟩ := r2
        simp only [hr, Option.some.injEq, Prod.mk.injEq] at h1
        obtain ⟨rfl, rfl⟩ := h1
        have := ih sa tb hr
        simp [run, hc, this]

theorem LogPreviewNavigation_of_le (name : PreviewsType → String) (url : String)
    (type : PreviewsType) (opt_out : Bool) (time : Time) (s : PreviewsLogger)
    (h : s.navigations_logs_.length ≤ kMaximumNavigationLogs) :
    LogPreviewNavigation name url type opt_out time s =
      some ({ s with navigations_logs_ :=
                (if s.navigations_logs_.length ≥ kMaximumNavigationLogs
                  then s.navigations_logs_.tail else s.navigations_logs_) ++
                [navigationRecord name (url, type, opt_out, time)] },
            LogMessage s kPreviewNavigationEventType
              (GetDescriptionForPreviewsNavigation name type opt_out) url time) := by
  simp only [LogPreviewNavigation, navigationRecord]
  rw [if_pos h]

theorem LogPreviewDecisionMade_of_le (name : PreviewsType → String)
    (reason : PreviewsEligibilityReason) (url : String) (time : Time) (type : PreviewsType)
    (s : PreviewsLogger) (h : s.decisions_logs_.length ≤ kMaximumDecisionLogs) :
    LogPreviewDecisionMade name reason url time type s =
      some ({ s with decisions_logs_ :=
                (if s.decisions_logs_.length ≥ kMaximumDecisionLogs
                  then s.decisions_logs_.tail else s.decisions_logs_) ++
                [decisionRecord name (reason, url, time, type)] },
            LogMessage s kPreviewDecisionMadeEventType
              (GetDescriptionForPreviewsDecision name reason type) url time) := by
  simp only [LogPreviewDecisionMade, decisionRecord]
  rw [if_pos h]

theorem length_push_le (cap : Nat) (hcap : 0 < cap) (l : List MessageLog) (r : MessageLog)
    (hl : l.length ≤ cap) :
    ((if l.length ≥ cap then l.tail else l) ++ [r]).length ≤ cap := by
  by_cases h : l.length ≥ cap
  · rw [if_pos h, List.length_append, List.length_tail, List.length_singleton]; omega
  · rw [if_neg h, List.length_append, List.length_singleton]; omega

theorem step_withinCapacity (name : PreviewsType → String) (c : Call) (s : PreviewsLogger)
    (h : WithinCapacity s) :
    ∃ s1 t, step name c s = some (s1, t) ∧ WithinCapacity s1 := by
  obtain ⟨hn, hd⟩ := h
  cases c with
  | AddAndNotifyObserver o => exact ⟨_, _, rfl, hn, hd⟩
  | RemoveObserver o => exact ⟨_, _, rfl, hn, hd⟩
  | LogPreviewNavigation url type opt_out time =>
    exact ⟨_, _, LogPreviewNavigation_of_le name url type opt_out time s hn,
      length_push_le kMaximumNavigationLogs (by decide) _ _ hn, hd⟩
  | LogPreviewDecisionMade reason url time type =>
    exact ⟨_, _, LogPreviewDecisionMade_of_le name reason url time type s hd, hn,
      length_push_le kMaximumDecisionLogs (by decide) _ _ hd⟩
  | OnNewBlacklistedHost host time => exact ⟨_, _, rfl, hn, hd⟩
  | OnUserBlacklistedStatusChange b => exact ⟨_, _, rfl, hn, hd⟩
  | OnBlacklistCleared time => exact ⟨_, _, rfl, hn, hd⟩
  | OnIgnoreBlacklistDecisionStatusChanged b => exact ⟨_, _, rfl, hn, hd⟩

theorem run_withinCapacity (name : PreviewsType → String) (cs : List Call) (s : PreviewsLogger)
    (h : WithinCapacity s) :
    ∃ s1 t, run name cs s = some (s1, t) ∧ WithinCapacity s1 := by
  induction cs generalizing s with
  | nil => exact ⟨s, [], rfl, h⟩
  | cons c cs ih =>
    obtain ⟨s1, t1, h1, hw1⟩ := step_withinCapacity name c s h
    obtain ⟨s2, t2, h2, hw2⟩ := ih s1 hw1
    exact ⟨s2, t1 ++ t2, by simp [run, h1, h2], hw2⟩

theorem fresh_withinCapacity (ub : Bool) : WithinCapacity (PreviewsLogger.fresh ub) := by
  simp [WithinCapacity, PreviewsLogger.fresh]

theorem mergeLogs_perm (nav dec : List MessageLog) :
    (mergeLogs nav dec).Perm (nav ++ dec) := by
  induction nav generalizing dec with
  | nil =>
    induction dec with
    | nil => rw [mergeLogs_nil_nil]; exact List.Perm.refl _
    | cons d ds ih =>
      rw [mergeLogs_nil_cons]
      exact List.Perm.cons d ih
  | cons n ns ihn =>
    induction dec with
    | nil =>
      rw [mergeLogs_cons_nil]
      exact List.Perm.cons n (ihn [])
    | cons d ds ihd =>
      rw [mergeLogs_cons_cons]
      by_cases h : n.time < d.time
      · rw [if_pos h]
        exact List.Perm.cons n (ihn (d :: ds))
      · rw [if_neg h]
        exact (List.Perm.cons d ihd).trans List.perm_middle.symm

theorem mem_mergeLogs (nav dec : List MessageLog) (m : MessageLog) :
    m ∈ mergeLogs nav dec ↔ m ∈ nav ∨ m ∈ dec := by
  rw [(mergeLogs_perm nav dec).mem_iff, List.mem_append]

theorem length_mergeLogs (nav dec : List MessageLog) :
    (mergeLogs nav dec).length = nav.length + dec.length := by
  rw [(mergeLogs_perm nav dec).length_eq, List.length_append]

theorem mergeLogs_timeOrdered (nav dec : List MessageLog)
    (hn : TimeOrdered nav) (hd : TimeOrdered dec) : TimeOrdered (mergeLogs nav dec) := by
  induction nav generalizing dec with
  | nil =>
    induction dec with
    | nil => rw [mergeLogs_nil_nil]; exact List.Pairwise.nil
    | cons d ds ih =>
      rw [mergeLogs_nil_cons]
      have hd2 := List.pairwise_cons.mp hd
      refine List.pairwise_cons.mpr ⟨?_, ih hd2.2⟩
      intro b hb
      rcases (mem_mergeLogs [] ds b).mp hb with hb | hb
      · simp at hb
      · exact hd2.1 b hb
  | cons n ns ihn =>
    have hn2 := List.pairwise_cons.mp hn
    induction dec with
    | nil =>
      rw [mergeLogs_cons_nil]
      refine List.pairwise_cons.mpr ⟨?_, ihn [] hn2.2 List.Pairwise.nil⟩
      intro b hb
      rcases (mem_mergeLogs ns [] b).mp hb with hb | hb
      · exact hn2.1 b hb
      · simp at hb
    | cons d ds ihd =>
      have hd2 := List.pairwise_cons.mp hd
      rw [mergeLogs_cons_cons]
      by_cases h : n.time < d.time
      · rw [if_pos h]
        refine List.pairwise_cons.mpr ⟨?_, ihn (d :: ds) hn2.2 hd⟩
        intro b hb
        rcases (mem_mergeLogs ns (d :: ds) b).mp hb with hb | hb
        · exact hn2.1 b hb
        · rcases List.mem_cons.mp hb with hb | hb
          · subst hb; exact le_of_lt h
          · exact le_trans (le_of_lt h) (hd2.1 b hb)
      · rw [if_neg h]
        have hle : d.time ≤ n.time := not_lt.mp h
        refine List.pairwise_cons.mpr ⟨?_, ihd hd2.2⟩
        intro b hb
        rcases (mem_mergeLogs (n :: ns) ds b).mp hb with hb | hb
        · rcases List.mem_cons.mp hb with hb | hb
          · subst hb; exact hle
          · exact le_trans hle (hn2.1 b hb)
        · exact hd2.1 b hb

theorem messagesTo_append (o : Observer) (t1 t2 : List Delivery) :
    messagesTo o (t1 ++ t2) = messagesTo o t1 ++ messagesTo o t2 := by
  simp [messagesTo, List.filterMap_append]

theorem messagesTo_map_message (o : Observer) (s : PreviewsLogger) (ms : List MessageLog) :
    messagesTo o (ms.map (fun m => Delivery.mk o (.OnNewMessageLogAdded m) s)) = ms := by
  induction ms with
  | nil => rfl
  | cons m ms ih =>
    simp only [messagesTo, List.map_cons, List.filterMap_cons] at ih ⊢
    simp [ih]

theorem messagesTo_map_host (o : Observer) (s : PreviewsLogger) (hs : List (String × Time)) :
    messagesTo o (hs.map (fun e => Delivery.mk o (.OnNewBlacklistedHost e.1 e.2) s)) = [] := by
  induction hs with
  | nil => rfl
  | cons m ms ih =>
    simp only [messagesTo, List.map_cons, List.filterMap_cons] at ih ⊢
    simp [ih]

theorem messagesTo_AddAndNotifyObserver (o : Observer) (s : PreviewsLogger) :
    messagesTo o (AddAndNotifyObserver o s).2 =
      mergeLogs s.navigations_logs_ s.decisions_logs_ := by
  simp only [AddAndNotifyObserver, messagesTo_append, messagesTo_map_message,
    messagesTo_map_host]
  simp [messagesTo]

theorem observer_of_mem_AddAndNotifyObserver (o : Observer) (s : PreviewsLogger)
    (d : Delivery) (hd : d ∈ (AddAndNotifyObserver o s).2) : d.observer = o := by
  simp only [AddAndNotifyObserver, List.mem_append, List.mem_map, List.mem_singleton] at hd
  rcases hd with ((hd | ⟨m, _, hd⟩) | hd) | ⟨e, _, hd⟩ <;> subst hd <;> rfl

theorem navigation_front_delivered (n : MessageLog) (ns ds : List MessageLog) :
    ∃ k, k ≤ ds.length ∧
      mergeLogs (n :: ns) ds = ds.take k ++ n :: mergeLogs ns (ds.drop k) := by
  induction ds with
  | nil => exact ⟨0, le_refl _, by rw [mergeLogs_cons_nil]; rfl⟩
  | cons d ds ih =>
    by_cases h : n.time < d.time
    · exact ⟨0, Nat.zero_le _, by rw [mergeLogs_cons_cons, if_pos h]; rfl⟩
    · obtain ⟨k, hk, hm⟩ := ih
      refine ⟨k + 1, by simp only [List.length_cons]; omega, ?_⟩
      rw [mergeLogs_cons_cons, if_neg h, hm]
      rfl

theorem calls_LogMessage (s : PreviewsLogger) (event_type description url : String)
    (time : Time) :
    calls (LogMessage s event_type description url time) =
      s.observer_list_.map (fun o =>
        (o, Callback.OnNewMessageLogAdded (MessageLog.mk event_type description url time))) := by
  simp only [calls, LogMessage, List.map_map]
  rfl

theorem fullExample_withinCapacity : WithinCapacity fullExample := by
  unfold WithinCapacity
  decide

theorem hostsFind_hostsAssign (hosts : List (String × Time)) (host : String) (time : Time) :
    hostsFind (hostsAssign hosts host time) host = some time := by
  induction hosts with
  | nil => simp [hostsAssign, hostsFind]
  | cons e rest ih =>
    obtain ⟨h, t⟩ := e
    by_cases hh : h = host
    · simp [hostsAssign, hostsFind, hh]
    · simp [hostsAssign, hostsFind, hh, ih]

theorem filter_map_pair_of_nodup (os : List Observer) (hnd : os.Nodup) (o : Observer)
    (ho : o ∈ os) (c : Callback) :
    (os.map (fun p => (p, c))).filter (fun x => x.1 = o) = [(o, c)] := by
  induction os with
  | nil => simp at ho
  | cons p ps ih =>
    have hnd2 := List.nodup_cons.mp hnd
    by_cases hp : p = o
    · subst hp
      have hnil : (ps.map (fun q => (q, c))).filter (fun x => x.1 = p) = [] := by
        rw [List.filter_eq_nil_iff]
        intro x hx
        simp only [List.mem_map] at hx
        obtain ⟨q, hq, rfl⟩ := hx
        simp only [decide_eq_true_eq]
        intro hqp
        exact hnd2.1 (hqp ▸ hq)
      simp [List.filter_cons, hnil]
    · have ho2 : o ∈ ps := by
        rcases List.mem_cons.mp ho with h | h
        · exact absurd h.symm hp
        · exact h
      simp [List.filter_cons, hp, ih hnd2.2 ho2]

/-! ## C1 -/

/-- C1: from a freshly constructed logger, every finite sequence of public
calls runs to completion (no `DCHECK_GE` fails on the way, whatever prefix
has been executed), and in the state it reaches the navigation queue holds at
most 10 records and the decision queue at most 25. -/
theorem C1_capacity_invariant (name : PreviewsType → String) (ub : Bool) (cs : List Call) :
    ∃ s t, run name cs (PreviewsLogger.fresh ub) = some (s, t) ∧
      s.navigations_logs_.length ≤ 10 ∧ s.decisions_logs_.length ≤ 25 ∧
      (∀ url type opt_out time,
        (LogPreviewNavigation name url type opt_out time s).isSome = true) ∧
      (∀ reason url time type,
        (LogPreviewDecisionMade name reason url time type s).isSome = true) := by
  obtain ⟨s, t, hrun, hn, hd⟩ := run_withinCapacity name cs _ (fresh_withinCapacity ub)
  refine ⟨s, t, hrun, hn, hd, ?_, ?_⟩
  · intro url type opt_out time
    simp only [LogPreviewNavigation]
    rw [if_pos hn]; rfl
  · intro reason url time type
    simp only [LogPreviewDecisionMade]
    rw [if_pos hd]; rfl

/-! ## C2 -/

theorem run_navigations (name : PreviewsType → String) (ub : Bool)
    (navs : List NavigationArgs) :
    run name (navs.map navigationCall) (PreviewsLogger.fresh ub) =
      some ({ PreviewsLogger.fresh ub with
                navigations_logs_ :=
                  (navs.map (navigationRecord name)).drop
                    ((navs.map (navigationRecord name)).length - kMaximumNavigationLogs) },
            []) := by
  induction navs using List.reverseRecOn with
  | nil => rfl
  | append_singleton l a ih =>
    simp only [List.map_append, List.map_cons, List.map_nil]
    have hstep := LogPreviewNavigation_of_le name a.1 a.2.1 a.2.2.1 a.2.2.2
      { PreviewsLogger.fresh ub with
          navigations_logs_ :=
            (l.map (navigationRecord name)).drop
              ((l.map (navigationRecord name)).length - kMaximumNavigationLogs) }
      (by simp only [List.length_drop, kMaximumNavigationLogs]; omega)
    simp only [drop_push_eq_drop kMaximumNavigationLogs (by decide)] at hstep
    have h2 := run_append name (l.map navigationCall) [navigationCall a] _ _ _ _ _ ih
      (by simp only [List.map, run, step, navigationCall, hstep]; rfl)
    rw [h2]
    simp [PreviewsLogger.fresh, LogMessage]

theorem run_decisions (name : PreviewsType → String) (ub : Bool)
    (decs : List DecisionArgs) :
    run name (decs.map decisionCall) (PreviewsLogger.fresh ub) =
      some ({ PreviewsLogger.fresh ub with
                decisions_logs_ :=
                  (decs.map (decisionRecord name)).drop
                    ((decs.map (decisionRecord name)).length - kMaximumDecisionLogs) },
            []) := by
  induction decs using List.reverseRecOn with
  | nil => rfl
  | append_singleton l a ih =>
    simp only [List.map_append, List.map_cons, List.map_nil]
    have hstep := LogPreviewDecisionMade_of_le name a.1 a.2.1 a.2.2.1 a.2.2.2
      { PreviewsLogger.fresh ub with
          decisions_logs_ :=
            (l.map (decisionRecord name)).drop
              ((l.map (decisionRecord name)).length - kMaximumDecisionLogs) }
      (by simp only [List.length_drop, kMaximumDecisionLogs]; omega)
    simp only [drop_push_eq_drop kMaximumDecisionLogs (by decide)] at hstep
    have h2 := run_append name (l.map decisionCall) [decisionCall a] _ _ _ _ _ ih
      (by simp only [List.map, run, step, decisionCall, hstep]; rfl)
    rw [h2]
    simp [PreviewsLogger.fresh, LogMessage]

/-- C2: after `n` calls of `LogPreviewNavigation` on a fresh logger the
navigation queue is, in arrival order, the records of the last `min n 10`
calls; after `n` calls of `LogPreviewDecisionMade` the decision queue is the
records of the last `min n 25` calls; and 11 navigation calls leave exactly
the records of calls 2 to 11. -/
theorem C2_eviction_order (name : PreviewsType → String) (ub : Bool) :
    (∀ navs : List NavigationArgs, ∃ s t,
      run name (navs.map navigationCall) (PreviewsLogger.fresh ub) = some (s, t) ∧
      s.navigations_logs_ =
        (navs.map (navigationRecord name)).drop (navs.length - min navs.length 10) ∧
      s.navigations_logs_.length = min navs.length 10) ∧
    (∀ decs : List DecisionArgs, ∃ s t,
      run name (decs.map decisionCall) (PreviewsLogger.fresh ub) = some (s, t) ∧
      s.decisions_logs_ =
        (decs.map (decisionRecord name)).drop (decs.length - min decs.length 25) ∧
      s.decisions_logs_.length = min decs.length 25) ∧
    (∀ (first : NavigationArgs) (rest : List NavigationArgs), rest.length = 10 →
      ∃ s t, run name ((first :: rest).map navigationCall) (PreviewsLogger.fresh ub)
          = some (s, t) ∧
        s.navigations_logs_ = rest.map (navigationRecord name)) := by
  refine ⟨?_, ?_, ?_⟩
  · intro navs
    refine ⟨_, _, run_navigations name ub navs, ?_, ?_⟩
    · simp only [List.length_map, kMaximumNavigationLogs]
      congr 1; omega
    · simp only [List.length_drop, List.length_map, kMaximumNavigationLogs]; omega
  · intro decs
    refine ⟨_, _, run_decisions name ub decs, ?_, ?_⟩
    · simp only [List.length_map, kMaximumDecisionLogs]
      congr 1; omega
    · simp only [List.length_drop, List.length_map, kMaximumDecisionLogs]; omega
  · intro first rest hlen
    refine ⟨_, _, run_navigations name ub (first :: rest), ?_⟩
    simp [hlen, kMaximumNavigationLogs]

/-- Witness of C2: eleven navigation calls at times 1 to 11. -/
theorem C2_eviction_order_witness :
    ∃ s t, run (fun _ => "LoFi")
        ((("u", 2, false, 1) ::
          [("u", 2, false, 2), ("u", 2, false, 3), ("u", 2, false, 4), ("u", 2, false, 5),
           ("u", 2, false, 6), ("u", 2, false, 7), ("u", 2, false, 8), ("u", 2, false, 9),
           ("u", 2, false, 10), ("u", 2, true, 11)]).map navigationCall)
        (PreviewsLogger.fresh false) = some (s, t) ∧
      s.navigations_logs_ =
        [("u", 2, false, 2), ("u", 2, false, 3), ("u", 2, false, 4), ("u", 2, false, 5),
         ("u", 2, false, 6), ("u", 2, false, 7), ("u", 2, false, 8), ("u", 2, false, 9),
         ("u", 2, false, 10), ("u", 2, true, 11)].map (navigationRecord (fun _ => "LoFi")) :=
  (C2_eviction_order (fun _ => "LoFi") false).2.2 ("u", 2, false, 1)
    [("u", 2, false, 2), ("u", 2, false, 3), ("u", 2, false, 4), ("u", 2, false, 5),
     ("u", 2, false, 6), ("u", 2, false, 7), ("u", 2, false, 8), ("u", 2, false, 9),
     ("u", 2, false, 10), ("u", 2, true, 11)] rfl

/-! ## C3 -/

/-- C3 as stated fails: with navigation records at times 1, 3, 5 and decision
records at times 2, 3, 6 the replay is not navigation 1, decision 2,
navigation 3, decision 3, navigation 5, decision 6. -/
theorem C3_replay_order_counterexample :
    messagesTo 7 (AddAndNotifyObserver 7 replayExample).2 ≠
      [navigationAt 1, decisionAt 2, navigationAt 3, decisionAt 3, navigationAt 5,
        decisionAt 6] := by
  rw [messagesTo_AddAndNotifyObserver]
  simp only [replayExample, mergeLogs_cons_cons, navigationAt, decisionAt, navigationRecord,
    decisionRecord]
  decide

/-- C3 amended: with navigation records at times 1, 3, 5 and decision records
at times 2, 3, 6, attaching an observer replays to it exactly six records, in
the order navigation 1, decision 2, decision 3, navigation 3, navigation 5,
decision 6, and no callback of the attach goes to another observer. -/
theorem C3_replay_order (s : PreviewsLogger) (o : Observer)
    (n1 n3 n5 d2 d3 d6 : MessageLog) :
    messagesTo o (AddAndNotifyObserver o
        { s with
          navigations_logs_ :=
            [{ n1 with time := 1 }, { n3 with time := 3 }, { n5 with time := 5 }]
          decisions_logs_ :=
            [{ d2 with time := 2 }, { d3 with time := 3 }, { d6 with time := 6 }] }).2
      = [{ n1 with time := 1 }, { d2 with time := 2 }, { d3 with time := 3 },
          { n3 with time := 3 }, { n5 with time := 5 }, { d6 with time := 6 }] ∧
    ∀ d ∈ (AddAndNotifyObserver o
        { s with
          navigations_logs_ :=
            [{ n1 with time := 1 }, { n3 with time := 3 }, { n5 with time := 5 }]
          decisions_logs_ :=
            [{ d2 with time := 2 }, { d3 with time := 3 }, { d6 with time := 6 }] }).2,
      d.observer = o := by
  refine ⟨?_, fun d hd => observer_of_mem_AddAndNotifyObserver o _ d hd⟩
  rw [messagesTo_AddAndNotifyObserver]
  simp [mergeLogs_cons_cons, mergeLogs_nil_cons, mergeLogs_nil_nil]

/-! ## C4 -/

/-- C4: in a loop iteration with both cursors inside their queues, the
navigation record is the one delivered (and the navigation cursor the one
advanced) exactly when its time is strictly smaller than the decision
record's; otherwise the decision record is delivered; and with equal times the
decision record comes first in the replay and the navigation record follows
it, after decision records only. -/
theorem C4_tie_breaking (n d : MessageLog) (ns ds : List MessageLog) :
    (replayStep (n :: ns) (d :: ds) = some (n, ns, d :: ds) ↔ n.time < d.time) ∧
    (replayStep (n :: ns) (d :: ds) = some (d, n :: ns, ds) ↔ ¬ n.time < d.time) ∧
    (mergeLogs (n :: ns) (d :: ds) =
      if n.time < d.time then n :: mergeLogs ns (d :: ds) else d :: mergeLogs (n :: ns) ds) ∧
    (n.time = d.time → ∃ k, k ≤ ds.length ∧
      mergeLogs (n :: ns) (d :: ds) = d :: (ds.take k ++ n :: mergeLogs ns (ds.drop k))) := by
  refine ⟨?_, ?_, mergeLogs_cons_cons n d ns ds, ?_⟩
  · by_cases h : n.time < d.time
    · simp [replayStep, h]
    · simp [replayStep, h]
  · by_cases h : n.time < d.time
    · simp [replayStep, h]
    · simp [replayStep, h]
  · intro heq
    obtain ⟨k, hk, hm⟩ := navigation_front_delivered n ns ds
    refine ⟨k, hk, ?_⟩
    rw [mergeLogs_cons_cons, if_neg (by rw [heq]; exact lt_irrefl _), hm]

/-- Witness of C4: a navigation and a decision record, both at time 3. -/
theorem C4_tie_breaking_witness :
    (navigationAt 3).time = (decisionAt 3).time ∧
    ∃ k, k ≤ [decisionAt 6].length ∧
      mergeLogs (navigationAt 3 :: [navigationAt 5]) (decisionAt 3 :: [decisionAt 6]) =
        decisionAt 3 ::
          ([decisionAt 6].take k ++ navigationAt 3 ::
            mergeLogs [navigationAt 5] ([decisionAt 6].drop k)) :=
  ⟨rfl, (C4_tie_breaking (navigationAt 3) (decisionAt 3) [navigationAt 5] [decisionAt 6]).2.2.2
    rfl⟩

/-! ## C5 -/

/-- C5: when the navigation queue and the decision queue are each
non-decreasing in time, the records replayed to a newly attached observer are
non-decreasing in time. -/
theorem C5_chronological_replay (s : PreviewsLogger) (o : Observer)
    (hn : TimeOrdered s.navigations_logs_) (hd : TimeOrdered s.decisions_logs_) :
    TimeOrdered (messagesTo o (AddAndNotifyObserver o s).2) := by
  rw [messagesTo_AddAndNotifyObserver]
  exact mergeLogs_timeOrdered _ _ hn hd

/-- Witness of C5: the logger with navigation times 1, 3, 5 and decision
times 2, 3, 6. -/
theorem C5_chronological_replay_witness :
    TimeOrdered replayExample.navigations_logs_ ∧
    TimeOrdered replayExample.decisions_logs_ ∧
    TimeOrdered (messagesTo 7 (AddAndNotifyObserver 7 replayExample).2) :=
  ⟨by unfold TimeOrdered; decide, by unfold TimeOrdered; decide,
    C5_chronological_replay replayExample 7 (by unfold TimeOrdered; decide)
      (by unfold TimeOrdered; decide)⟩

/-! ## C6 -/

theorem calls_AddAndNotifyObserver (o : Observer) (s : PreviewsLogger) :
    calls (AddAndNotifyObserver o s).2 =
      [(o, Callback.OnIgnoreBlacklistDecisionStatusChanged s.blacklist_ignored_)]
        ++ (mergeLogs s.navigations_logs_ s.decisions_logs_).map
            (fun m => (o, Callback.OnNewMessageLogAdded m))
        ++ [(o, Callback.OnUserBlacklistedStatusChange s.user_blacklisted_status_)]
        ++ s.blacklisted_hosts_.map
            (fun entry => (o, Callback.OnNewBlacklistedHost entry.1 entry.2)) := by
  simp only [calls, AddAndNotifyObserver, List.map_append, List.map_map, List.map_cons,
    List.map_nil]
  rfl

/-- C6: `AddAndNotifyObserver o` makes exactly these callbacks, all on `o`, in
this order: one `OnIgnoreBlacklistDecisionStatusChanged` with the current
ignored flag, the merged records through `OnNewMessageLogAdded`, one
`OnUserBlacklistedStatusChange` with the current flag, and one
`OnNewBlacklistedHost` per entry of the host map with the stored time; none of
them is `OnBlacklistCleared` or `OnLastObserverRemove`.  In the end-to-end
run (a decision at `t1`, a navigation at `t2 > t1`, then the attach on a
fresh logger) the observer gets the ignored flag, the decision record, the
navigation record and the user-blacklisted flag, and no host entry. -/
theorem C6_attach_sequence (o : Observer) (s : PreviewsLogger) :
    (calls (AddAndNotifyObserver o s).2 =
      [(o, Callback.OnIgnoreBlacklistDecisionStatusChanged s.blacklist_ignored_)]
        ++ (mergeLogs s.navigations_logs_ s.decisions_logs_).map
            (fun m => (o, Callback.OnNewMessageLogAdded m))
        ++ [(o, Callback.OnUserBlacklistedStatusChange s.user_blacklisted_status_)]
        ++ s.blacklisted_hosts_.map
            (fun entry => (o, Callback.OnNewBlacklistedHost entry.1 entry.2))) ∧
    (∀ d ∈ (AddAndNotifyObserver o s).2,
      d.callback ≠ Callback.OnLastObserverRemove ∧
      ∀ t, d.callback ≠ Callback.OnBlacklistCleared t) ∧
    (∀ (name : PreviewsType → String) (ub : Bool) (url1 url2 : String) (type : PreviewsType)
      (t1 t2 : Time), t1 < t2 →
      ∃ s1 t, run name
          [Call.LogPreviewDecisionMade PreviewsEligibilityReason.ALLOWED url1 t1 type,
            Call.LogPreviewNavigation url2 type false t2,
            Call.AddAndNotifyObserver o] (PreviewsLogger.fresh ub) = some (s1, t) ∧
        calls t =
          [(o, Callback.OnIgnoreBlacklistDecisionStatusChanged false),
            (o, Callback.OnNewMessageLogAdded
              (decisionRecord name (PreviewsEligibilityReason.ALLOWED, url1, t1, type))),
            (o, Callback.OnNewMessageLogAdded
              (navigationRecord name (url2, type, false, t2))),
            (o, Callback.OnUserBlacklistedStatusChange ub)]) := by
  refine ⟨calls_AddAndNotifyObserver o s, ?_, ?_⟩
  · intro d hd
    simp only [AddAndNotifyObserver, List.mem_append, List.mem_map, List.mem_singleton] at hd
    rcases hd with ((hd | ⟨m, _, hd⟩) | hd) | ⟨e, _, hd⟩ <;> subst hd <;>
      exact ⟨by simp, fun t => by simp⟩
  · intro name ub url1 url2 type t1 t2 hlt
    have hnot : ¬ t2 < t1 := not_lt.mpr (le_of_lt hlt)
    have h1 := LogPreviewDecisionMade_of_le name PreviewsEligibilityReason.ALLOWED url1 t1 type
      (PreviewsLogger.fresh ub) (by simp [PreviewsLogger.fresh])
    have h2 := LogPreviewNavigation_of_le name url2 type false t2
      { PreviewsLogger.fresh ub with
        decisions_logs_ :=
          (if (PreviewsLogger.fresh ub).decisions_logs_.length ≥ kMaximumDecisionLogs
            then (PreviewsLogger.fresh ub).decisions_logs_.tail
            else (PreviewsLogger.fresh ub).decisions_logs_) ++
          [decisionRecord name (PreviewsEligibilityReason.ALLOWED, url1, t1, type)] }
      (by simp [PreviewsLogger.fresh])
    have hrun : ∃ r, run name
          [Call.LogPreviewDecisionMade PreviewsEligibilityReason.ALLOWED url1 t1 type,
            Call.LogPreviewNavigation url2 type false t2,
            Call.AddAndNotifyObserver o] (PreviewsLogger.fresh ub) = some r ∧
        calls r.2 =
          [(o, Callback.OnIgnoreBlacklistDecisionStatusChanged false),
            (o, Callback.OnNewMessageLogAdded
              (decisionRecord name (PreviewsEligibilityReason.ALLOWED, url1, t1, type))),
            (o, Callback.OnNewMessageLogAdded
              (navigationRecord name (url2, type, false, t2))),
            (o, Callback.OnUserBlacklistedStatusChange ub)] := by
      simp only [run, step, h1, h2]
      refine ⟨_, rfl, ?_⟩
      simp only [List.append_nil, LogMessage, PreviewsLogger.fresh, List.map_nil,
        List.nil_append, calls_AddAndNotifyObserver]
      simp [kMaximumNavigationLogs, kMaximumDecisionLogs, mergeLogs_cons_cons,
        mergeLogs_nil_cons, mergeLogs_cons_nil, mergeLogs_nil_nil, navigationRecord,
        decisionRecord, hnot]
    obtain ⟨⟨s1, t⟩, hr, hc⟩ := hrun
    exact ⟨s1, t, hr, hc⟩

/-- Witness of C6: a decision at time 1, a navigation at time 2, then the
attach of observer 7. -/
theorem C6_attach_sequence_witness :
    (1 : Time) < 2 ∧
    ∃ s1 t, run (fun _ => "LoFi")
        [Call.LogPreviewDecisionMade PreviewsEligibilityReason.ALLOWED "https://a.test/" 1 2,
          Call.LogPreviewNavigation "https://a.test/" 2 false 2,
          Call.AddAndNotifyObserver 7] (PreviewsLogger.fresh false) = some (s1, t) ∧
      calls t =
        [(7, Callback.OnIgnoreBlacklistDecisionStatusChanged false),
          (7, Callback.OnNewMessageLogAdded
            (decisionRecord (fun _ => "LoFi")
              (PreviewsEligibilityReason.ALLOWED, "https://a.test/", 1, 2))),
          (7, Callback.OnNewMessageLogAdded
            (navigationRecord (fun _ => "LoFi") ("https://a.test/", 2, false, 2))),
          (7, Callback.OnUserBlacklistedStatusChange false)] :=
  ⟨by decide, (C6_attach_sequence 7 (PreviewsLogger.fresh false)).2.2 (fun _ => "LoFi") false
    "https://a.test/" "https://a.test/" 2 1 2 (by decide)⟩

/-! ## C7 -/

/-- C7: in a state within capacity with registered observers `o1 .. ok`
(`observer_list_`, which `AddAndNotifyObserver` extends at the back), a call
of `LogPreviewNavigation` or `LogPreviewDecisionMade` returns and makes
exactly `k` callbacks: `OnNewMessageLogAdded` on `o1`, ..., `ok` in that
order, each with the record of the call, and nothing else; with no observer
the trace is empty; in both cases the record is in the queue afterwards. -/
theorem C7_live_fanout (name : PreviewsType → String) (s : PreviewsLogger)
    (h : WithinCapacity s) :
    (∀ url type opt_out time, ∃ s1 t,
      LogPreviewNavigation name url type opt_out time s = some (s1, t) ∧
      calls t = s.observer_list_.map (fun o =>
        (o, Callback.OnNewMessageLogAdded (navigationRecord name (url, type, opt_out, time)))) ∧
      t.length = s.observer_list_.length ∧
      (s.observer_list_ = [] → t = []) ∧
      navigationRecord name (url, type, opt_out, time) ∈ s1.navigations_logs_) ∧
    (∀ reason url time type, ∃ s1 t,
      LogPreviewDecisionMade name reason url time type s = some (s1, t) ∧
      calls t = s.observer_list_.map (fun o =>
        (o, Callback.OnNewMessageLogAdded (decisionRecord name (reason, url, time, type)))) ∧
      t.length = s.observer_list_.length ∧
      (s.observer_list_ = [] → t = []) ∧
      decisionRecord name (reason, url, time, type) ∈ s1.decisions_logs_) ∧
    (∀ o, (AddAndNotifyObserver o s).1.observer_list_ =
      if o ∈ s.observer_list_ then s.observer_list_ else s.observer_list_ ++ [o]) := by
  refine ⟨?_, ?_, fun o => rfl⟩
  · intro url type opt_out time
    refine ⟨_, _, LogPreviewNavigation_of_le name url type opt_out time s h.1,
      calls_LogMessage _ _ _ _ _, ?_, ?_, ?_⟩
    · simp [LogMessage]
    · intro he; simp [LogMessage, he]
    · simp
  · intro reason url time type
    refine ⟨_, _, LogPreviewDecisionMade_of_le name reason url time type s h.2,
      calls_LogMessage _ _ _ _ _, ?_, ?_, ?_⟩
    · simp [LogMessage]
    · intro he; simp [LogMessage, he]
    · simp

/-- Witness of C7: a navigation call on the logger with full queues and the
observers 3 and 5. -/
theorem C7_live_fanout_witness :
    WithinCapacity fullExample ∧
    ∃ s1 t,
      LogPreviewNavigation (fun _ => "LoFi") "https://b.test/" 2 true 40 fullExample
        = some (s1, t) ∧
      calls t = fullExample.observer_list_.map (fun o =>
        (o, Callback.OnNewMessageLogAdded
          (navigationRecord (fun _ => "LoFi") ("https://b.test/", 2, true, 40)))) ∧
      t.length = fullExample.observer_list_.length ∧
      (fullExample.observer_list_ = [] → t = []) ∧
      navigationRecord (fun _ => "LoFi") ("https://b.test/", 2, true, 40)
        ∈ s1.navigations_logs_ :=
  ⟨fullExample_withinCapacity,
    (C7_live_fanout (fun _ => "LoFi") fullExample fullExample_withinCapacity).1
      "https://b.test/" 2 true 40⟩

/-! ## C8 -/

/-- C8: in a state within capacity (a full queue included), after
`LogPreviewNavigation` returns, the newest element of the navigation queue is
the very record carried by every callback of the call, and the queue is the
old queue, without its oldest element when it was full, followed by that
record; the same for `LogPreviewDecisionMade` and the decision queue. -/
theorem C8_broadcast_equals_stored (name : PreviewsType → String) (s : PreviewsLogger)
    (h : WithinCapacity s) :
    (∀ url type opt_out time, ∃ s1 t r,
      LogPreviewNavigation name url type opt_out time s = some (s1, t) ∧
      t.length = s.observer_list_.length ∧
      (∀ d ∈ t, d.callback = Callback.OnNewMessageLogAdded r) ∧
      s1.navigations_logs_.getLast? = some r ∧
      r ∈ s1.navigations_logs_ ∧
      s1.navigations_logs_ =
        s.navigations_logs_.drop
          (if s.navigations_logs_.length = kMaximumNavigationLogs then 1 else 0) ++ [r]) ∧
    (∀ reason url time type, ∃ s1 t r,
      LogPreviewDecisionMade name reason url time type s = some (s1, t) ∧
      t.length = s.observer_list_.length ∧
      (∀ d ∈ t, d.callback = Callback.OnNewMessageLogAdded r) ∧
      s1.decisions_logs_.getLast? = some r ∧
      r ∈ s1.decisions_logs_ ∧
      s1.decisions_logs_ =
        s.decisions_logs_.drop
          (if s.decisions_logs_.length = kMaximumDecisionLogs then 1 else 0) ++ [r]) := by
  refine ⟨?_, ?_⟩
  · intro url type opt_out time
    refine ⟨_, _, navigationRecord name (url, type, opt_out, time),
      LogPreviewNavigation_of_le name url type opt_out time s h.1, ?_, ?_, ?_, ?_, ?_⟩
    · simp [LogMessage]
    · intro d hd
      simp only [LogMessage, List.mem_map] at hd
      obtain ⟨o, _, rfl⟩ := hd
      rfl
    · simp
    · simp
    · have h1 := h.1
      by_cases hf : s.navigations_logs_.length = kMaximumNavigationLogs
      · simp [hf]
      · have : ¬ s.navigations_logs_.length ≥ kMaximumNavigationLogs := by omega
        simp [hf, this]
  · intro reason url time type
    refine ⟨_, _, decisionRecord name (reason, url, time, type),
      LogPreviewDecisionMade_of_le name reason url time type s h.2, ?_, ?_, ?_, ?_, ?_⟩
    · simp [LogMessage]
    · intro d hd
      simp only [LogMessage, List.mem_map] at hd
      obtain ⟨o, _, rfl⟩ := hd
      rfl
    · simp
    · simp
    · have h1 := h.2
      by_cases hf : s.decisions_logs_.length = kMaximumDecisionLogs
      · simp [hf]
      · have : ¬ s.decisions_logs_.length ≥ kMaximumDecisionLogs := by omega
        simp [hf, this]

/-- Witness of C8: a decision call on the logger whose decision queue already
holds 25 records. -/
theorem C8_broadcast_equals_stored_witness :
    WithinCapacity fullExample ∧
    ∃ s1 t r,
      LogPreviewDecisionMade (fun _ => "LoFi") PreviewsEligibilityReason.NETWORK_NOT_SLOW
        "https://b.test/" 40 2 fullExample = some (s1, t) ∧
      t.length = fullExample.observer_list_.length ∧
      (∀ d ∈ t, d.callback = Callback.OnNewMessageLogAdded r) ∧
      s1.decisions_logs_.getLast? = some r ∧
      r ∈ s1.decisions_logs_ ∧
      s1.decisions_logs_ =
        fullExample.decisions_logs_.drop
          (if fullExample.decisions_logs_.length = kMaximumDecisionLogs then 1 else 0) ++ [r] :=
  ⟨fullExample_withinCapacity,
    (C8_broadcast_equals_stored (fun _ => "LoFi") fullExample fullExample_withinCapacity).2
      PreviewsEligibilityReason.NETWORK_NOT_SLOW "https://b.test/" 40 2⟩

/-! ## C9 -/

/-- C9: every callback made by `AddAndNotifyObserver B` is made on `B`; an
observer `A` other than `B` gets none of them; the records `B` gets through
`OnNewMessageLogAdded` during the attach are exactly the replay of the two
queues, one per stored record; and a broadcast made by `LogMessage` while `B`
is not registered does not reach `B`. -/
theorem C9_attach_isolation (s : PreviewsLogger) (B : Observer) :
    (∀ d ∈ (AddAndNotifyObserver B s).2, d.observer = B) ∧
    (∀ A, A ≠ B → (calls (AddAndNotifyObserver B s).2).filter (fun c => c.1 = A) = [] ∧
      messagesTo A (AddAndNotifyObserver B s).2 = []) ∧
    messagesTo B (AddAndNotifyObserver B s).2 =
      mergeLogs s.navigations_logs_ s.decisions_logs_ ∧
    (messagesTo B (AddAndNotifyObserver B s).2).length =
      s.navigations_logs_.length + s.decisions_logs_.length ∧
    (B ∉ s.observer_list_ → ∀ event_type description url time,
      ∀ d ∈ LogMessage s event_type description url time, d.observer ≠ B) := by
  refine ⟨observer_of_mem_AddAndNotifyObserver B s, ?_, messagesTo_AddAndNotifyObserver B s,
    ?_, ?_⟩
  · intro A hA
    constructor
    · rw [List.filter_eq_nil_iff]
      intro c hc
      simp only [calls, List.mem_map] at hc
      obtain ⟨d, hd, rfl⟩ := hc
      have := observer_of_mem_AddAndNotifyObserver B s d hd
      simp only [this, decide_eq_true_eq]
      exact fun h => hA h.symm
    · simp only [messagesTo, List.filterMap_eq_nil_iff]
      intro d hd
      have hob := observer_of_mem_AddAndNotifyObserver B s d hd
      cases hcb : d.callback <;> simp [hob, Ne.symm hA]
  · rw [messagesTo_AddAndNotifyObserver, length_mergeLogs]
  · intro hB event_type description url time d hd
    simp only [LogMessage, List.mem_map] at hd
    obtain ⟨o, ho, rfl⟩ := hd
    intro h
    exact hB (h ▸ ho)

/-- Witness of C9: observer 9 attaches to the logger where 3 and 5 are
registered; observer 3 gets nothing. -/
theorem C9_attach_isolation_witness :
    (3 : Observer) ≠ 9 ∧
    (calls (AddAndNotifyObserver 9 fullExample).2).filter (fun c => c.1 = 3) = [] ∧
    messagesTo 3 (AddAndNotifyObserver 9 fullExample).2 = [] ∧
    (9 ∉ fullExample.observer_list_ ∧
      ∀ d ∈ LogMessage fullExample "Navigation" "" "" 0, d.observer ≠ 9) :=
  ⟨by decide, ((C9_attach_isolation fullExample 9).2.1 3 (by decide)).1,
    ((C9_attach_isolation fullExample 9).2.1 3 (by decide)).2, by decide,
    (C9_attach_isolation fullExample 9).2.2.2.2 (by decide) "Navigation" "" "" 0⟩

/-! ## C10 -/

/-- C10: `RemoveObserver O` calls `OnLastObserverRemove` once, on `O`, and
nothing else, when the registry is empty after the removal; it makes no
callback at all when an observer other than `O` is registered.  So attaching
one observer to a fresh logger and detaching it gives exactly one
`OnLastObserverRemove` on it, and with two different observers attached,
detaching either gives none. -/
theorem C10_last_observer_signal (s : PreviewsLogger) (O : Observer) :
    (RemoveObserverFromList s.observer_list_ O = [] →
      calls (RemoveObserver O s).2 = [(O, Callback.OnLastObserverRemove)]) ∧
    ((∃ P, P ≠ O ∧ P ∈ s.observer_list_) → (RemoveObserver O s).2 = []) ∧
    (∀ ub, calls (RemoveObserver O (AddAndNotifyObserver O (PreviewsLogger.fresh ub)).1).2 =
      [(O, Callback.OnLastObserverRemove)]) ∧
    (∀ ub P, P ≠ O →
      (RemoveObserver O
        (AddAndNotifyObserver P (AddAndNotifyObserver O (PreviewsLogger.fresh ub)).1).1).2 = [] ∧
      (RemoveObserver P
        (AddAndNotifyObserver P (AddAndNotifyObserver O (PreviewsLogger.fresh ub)).1).1).2
        = []) := by
  refine ⟨?_, ?_, ?_, ?_⟩
  · intro he
    simp [RemoveObserver, he, calls]
  · rintro ⟨P, hP, hmem⟩
    have hmem2 : P ∈ RemoveObserverFromList s.observer_list_ O :=
      (List.mem_erase_of_ne hP).mpr hmem
    have hne : RemoveObserverFromList s.observer_list_ O ≠ [] :=
      List.ne_nil_of_mem hmem2
    simp [RemoveObserver, hne]
  · intro ub
    simp [RemoveObserver, AddAndNotifyObserver, AddObserver, RemoveObserverFromList,
      PreviewsLogger.fresh, calls]
  · intro ub P hP
    simp [RemoveObserver, AddAndNotifyObserver, AddObserver, RemoveObserverFromList,
      PreviewsLogger.fresh, hP, Ne.symm hP, List.erase_cons]

/-- Witness of C10: detaching 3 from the logger with observers 3 and 5 makes
no callback; detaching 5 from a logger with 5 alone signals it; attaching 3
and 5 to a fresh logger and detaching either makes no callback. -/
theorem C10_last_observer_signal_witness :
    (∃ P, P ≠ 3 ∧ P ∈ fullExample.observer_list_) ∧
    (RemoveObserver 3 fullExample).2 = [] ∧
    RemoveObserverFromList (RemoveObserver 3 fullExample).1.observer_list_ 5 = [] ∧
    calls (RemoveObserver 5 (RemoveObserver 3 fullExample).1).2 =
      [(5, Callback.OnLastObserverRemove)] ∧
    (5 : Observer) ≠ 3 ∧
    (RemoveObserver 3
      (AddAndNotifyObserver 5 (AddAndNotifyObserver 3 (PreviewsLogger.fresh false)).1).1).2
      = [] :=
  ⟨⟨5, by decide, by decide⟩,
    (C10_last_observer_signal fullExample 3).2.1 ⟨5, by decide, by decide⟩,
    by decide,
    (C10_last_observer_signal (RemoveObserver 3 fullExample).1 5).1 (by decide),
    by decide,
    ((C10_last_observer_signal fullExample 3).2.2.2 false 5 (by decide)).1⟩

/-! ## C11 -/

/-- C11: `OnUserBlacklistedStatusChange b` makes one callback per registered
observer, each while the logger is still in its state from before the call
(so the user-blacklisted flag read during the callback is the old one), and
the flag is `b` once the call has returned; with the flag unset before, a
call with `true` reads `false` during every callback and `true` afterwards.
`OnBlacklistCleared t` makes its callbacks while the host map still has its
old contents, and the host map is empty once the call has returned. -/
theorem C11_broadcast_then_mutate (s : PreviewsLogger) :
    (∀ b,
      calls (OnUserBlacklistedStatusChange b s).2 =
        s.observer_list_.map (fun o => (o, Callback.OnUserBlacklistedStatusChange b)) ∧
      (∀ d ∈ (OnUserBlacklistedStatusChange b s).2,
        d.logger = s ∧ d.logger.user_blacklisted_status_ = s.user_blacklisted_status_) ∧
      (OnUserBlacklistedStatusChange b s).1.user_blacklisted_status_ = b) ∧
    ((∀ d ∈ (OnUserBlacklistedStatusChange true
          { s with user_blacklisted_status_ := false }).2,
        d.logger.user_blacklisted_status_ = false) ∧
      (OnUserBlacklistedStatusChange true
          { s with user_blacklisted_status_ := false }).1.user_blacklisted_status_ = true) ∧
    (∀ t,
      calls (OnBlacklistCleared t s).2 =
        s.observer_list_.map (fun o => (o, Callback.OnBlacklistCleared t)) ∧
      (∀ d ∈ (OnBlacklistCleared t s).2,
        d.logger = s ∧ d.logger.blacklisted_hosts_ = s.blacklisted_hosts_) ∧
      (OnBlacklistCleared t s).1.blacklisted_hosts_ = []) := by
  refine ⟨fun b => ⟨?_, ?_, rfl⟩, ⟨?_, rfl⟩, fun t => ⟨?_, ?_, rfl⟩⟩
  · simp only [calls, OnUserBlacklistedStatusChange, List.map_map]
    rfl
  · intro d hd
    simp only [OnUserBlacklistedStatusChange, List.mem_map] at hd
    obtain ⟨o, _, rfl⟩ := hd
    exact ⟨rfl, rfl⟩
  · intro d hd
    simp only [OnUserBlacklistedStatusChange, List.mem_map] at hd
    obtain ⟨o, _, rfl⟩ := hd
    rfl
  · simp only [calls, OnBlacklistCleared, List.map_map]
    rfl
  · intro d hd
    simp only [OnBlacklistCleared, List.mem_map] at hd
    obtain ⟨o, _, rfl⟩ := hd
    exact ⟨rfl, rfl⟩

/-- Witness of C11: on the logger with two blacklisted hosts and observers 3
and 5, the callback on observer 5 of `OnUserBlacklistedStatusChange true` sees
the flag unset, and the callback on observer 3 of `OnBlacklistCleared 9` sees
both hosts. -/
theorem C11_broadcast_then_mutate_witness :
    (Delivery.mk 5 (Callback.OnUserBlacklistedStatusChange true) blacklistExample
        ∈ (OnUserBlacklistedStatusChange true blacklistExample).2 ∧
      (Delivery.mk 5 (Callback.OnUserBlacklistedStatusChange true)
        blacklistExample).logger.user_blacklisted_status_ = false ∧
      (OnUserBlacklistedStatusChange true blacklistExample).1.user_blacklisted_status_ = true) ∧
    (Delivery.mk 3 (Callback.OnBlacklistCleared 9) blacklistExample
        ∈ (OnBlacklistCleared 9 blacklistExample).2 ∧
      (Delivery.mk 3 (Callback.OnBlacklistCleared 9) blacklistExample).logger.blacklisted_hosts_
        = [("a.test", 5), ("b.test", 8)] ∧
      (OnBlacklistCleared 9 blacklistExample).1.blacklisted_hosts_ = []) :=
  ⟨⟨by decide,
      (((C11_broadcast_then_mutate blacklistExample).1 true).2.1 _ (by decide)).2,
      ((C11_broadcast_then_mutate blacklistExample).1 true).2.2⟩,
    ⟨by decide,
      (((C11_broadcast_then_mutate blacklistExample).2.2 9).2.1 _ (by decide)).2,
      ((C11_broadcast_then_mutate blacklistExample).2.2 9).2.2⟩⟩

/-! ## C12 -/

/-- C12: `OnNewBlacklistedHost host time` makes one callback per registered
observer, with `host` and `time`, each while the host map already maps `host`
to `time`; `OnIgnoreBlacklistDecisionStatusChanged flag` makes one callback
per registered observer, with `flag`, each while the ignored flag already is
`flag`; with a duplicate-free registry each registered observer gets exactly
one of these callbacks. -/
theorem C12_mutate_then_broadcast (s : PreviewsLogger) :
    (∀ host time,
      calls (OnNewBlacklistedHost host time s).2 =
        s.observer_list_.map (fun o => (o, Callback.OnNewBlacklistedHost host time)) ∧
      (∀ d ∈ (OnNewBlacklistedHost host time s).2,
        d.logger = (OnNewBlacklistedHost host time s).1 ∧
        hostsFind d.logger.blacklisted_hosts_ host = some time) ∧
      hostsFind (OnNewBlacklistedHost host time s).1.blacklisted_hosts_ host = some time) ∧
    (∀ flag,
      calls (OnIgnoreBlacklistDecisionStatusChanged flag s).2 =
        s.observer_list_.map
          (fun o => (o, Callback.OnIgnoreBlacklistDecisionStatusChanged flag)) ∧
      (∀ d ∈ (OnIgnoreBlacklistDecisionStatusChanged flag s).2,
        d.logger = (OnIgnoreBlacklistDecisionStatusChanged flag s).1 ∧
        d.logger.blacklist_ignored_ = flag) ∧
      (OnIgnoreBlacklistDecisionStatusChanged flag s).1.blacklist_ignored_ = flag) ∧
    (s.observer_list_.Nodup → ∀ o ∈ s.observer_list_,
      (∀ host time, (calls (OnNewBlacklistedHost host time s).2).filter (fun c => c.1 = o) =
        [(o, Callback.OnNewBlacklistedHost host time)]) ∧
      (∀ flag, (calls (OnIgnoreBlacklistDecisionStatusChanged flag s).2).filter
        (fun c => c.1 = o) = [(o, Callback.OnIgnoreBlacklistDecisionStatusChanged flag)])) := by
  have hcallsHost : ∀ host time, calls (OnNewBlacklistedHost host time s).2 =
      s.observer_list_.map (fun o => (o, Callback.OnNewBlacklistedHost host time)) := by
    intro host time
    simp only [calls, OnNewBlacklistedHost, List.map_map]
    rfl
  have hcallsIgnore : ∀ flag, calls (OnIgnoreBlacklistDecisionStatusChanged flag s).2 =
      s.observer_list_.map
        (fun o => (o, Callback.OnIgnoreBlacklistDecisionStatusChanged flag)) := by
    intro flag
    simp only [calls, OnIgnoreBlacklistDecisionStatusChanged, List.map_map]
    rfl
  refine ⟨fun host time => ⟨hcallsHost host time, ?_, ?_⟩,
    fun flag => ⟨hcallsIgnore flag, ?_, rfl⟩, ?_⟩
  · intro d hd
    simp only [OnNewBlacklistedHost, List.mem_map] at hd
    obtain ⟨o, _, rfl⟩ := hd
    exact ⟨rfl, hostsFind_hostsAssign _ _ _⟩
  · exact hostsFind_hostsAssign _ _ _
  · intro d hd
    simp only [OnIgnoreBlacklistDecisionStatusChanged, List.mem_map] at hd
    obtain ⟨o, _, rfl⟩ := hd
    exact ⟨rfl, rfl⟩
  · intro hnd o ho
    refine ⟨fun host time => ?_, fun flag => ?_⟩
    · rw [hcallsHost]
      exact filter_map_pair_of_nodup _ hnd o ho _
    · rw [hcallsIgnore]
      exact filter_map_pair_of_nodup _ hnd o ho _

/-- Witness of C12: on the logger with observers 3 and 5, observer 5 gets
exactly one callback for a new time of host `a.test` and exactly one for the
ignored flag. -/
theorem C12_mutate_then_broadcast_witness :
    blacklistExample.observer_list_.Nodup ∧ 5 ∈ blacklistExample.observer_list_ ∧
    (∀ host time, (calls (OnNewBlacklistedHost host time blacklistExample).2).filter
      (fun c => c.1 = 5) = [(5, Callback.OnNewBlacklistedHost host time)]) ∧
    (∀ flag, (calls (OnIgnoreBlacklistDecisionStatusChanged flag blacklistExample).2).filter
      (fun c => c.1 = 5) = [(5, Callback.OnIgnoreBlacklistDecisionStatusChanged flag)]) ∧
    hostsFind (OnNewBlacklistedHost "a.test" 11 blacklistExample).1.blacklisted_hosts_ "a.test"
      = some 11 :=
  ⟨by decide, by decide,
    ((C12_mutate_then_broadcast blacklistExample).2.2 (by decide) 5 (by decide)).1,
    ((C12_mutate_then_broadcast blacklistExample).2.2 (by decide) 5 (by decide)).2,
    ((C12_mutate_then_broadcast blacklistExample).1 "a.test" 11).2.2⟩

/-! ## C13 -/

theorem keys_hostsAssign (hosts : List (String × Time)) (host : String) (time : Time) :
    (hostsAssign hosts host time).map Prod.fst =
      if host ∈ hosts.map Prod.fst then hosts.map Prod.fst
      else hosts.map Prod.fst ++ [host] := by
  induction hosts with
  | nil => simp [hostsAssign]
  | cons e rest ih =>
    obtain ⟨h, t⟩ := e
    by_cases hh : h = host
    · simp [hostsAssign, hh]
    · have hh2 : ¬ host = h := fun x => hh x.symm
      by_cases hin : host ∈ rest.map Prod.fst
      · simp only [hostsAssign, if_neg hh, List.map_cons, ih, if_pos hin]
        rw [if_pos (List.mem_cons_of_mem _ hin)]
      · simp only [hostsAssign, if_neg hh, List.map_cons, ih, if_neg hin]
        rw [if_neg (by
          intro hc
          rcases List.mem_cons.mp hc with hc | hc
          · exact hh2 hc
          · exact hin hc)]
        rfl

theorem nodupKeys_hostsAssign (hosts : List (String × Time)) (host : String) (time : Time)
    (hnd : (hosts.map Prod.fst).Nodup) : ((hostsAssign hosts host time).map Prod.fst).Nodup := by
  rw [keys_hostsAssign]
  by_cases hin : host ∈ hosts.map Prod.fst
  · rw [if_pos hin]; exact hnd
  · rw [if_neg hin]
    refine List.Nodup.append hnd (List.nodup_singleton _) ?_
    intro a ha hb
    rw [List.mem_singleton] at hb
    exact hin (hb ▸ ha)

theorem mem_hostsAssign (hosts : List (String × Time)) (host : String) (time : Time)
    (hnd : (hosts.map Prod.fst).Nodup) (k : String) (v : Time) :
    (k, v) ∈ hostsAssign hosts host time ↔
      (k = host ∧ v = time) ∨ (k ≠ host ∧ (k, v) ∈ hosts) := by
  induction hosts with
  | nil => simp [hostsAssign]
  | cons e rest ih =>
    obtain ⟨h, t⟩ := e
    rw [List.map_cons, List.nodup_cons] at hnd
    by_cases hh : h = host
    · subst hh
      simp only [hostsAssign, if_true, List.mem_cons, Prod.mk.injEq]
      constructor
      · rintro (⟨rfl, rfl⟩ | hm)
        · exact Or.inl ⟨rfl, rfl⟩
        · refine Or.inr ⟨?_, Or.inr hm⟩
          rintro rfl
          exact hnd.1 (List.mem_map.mpr ⟨(k, v), hm, rfl⟩)
      · rintro (⟨rfl, rfl⟩ | ⟨hne, hm⟩)
        · exact Or.inl ⟨rfl, rfl⟩
        · rcases hm with ⟨rfl, _⟩ | hm
          · exact absurd rfl hne
          · exact Or.inr hm
    · simp only [hostsAssign, if_neg hh, List.mem_cons, Prod.mk.injEq, ih hnd.2]
      constructor
      · rintro (⟨rfl, rfl⟩ | hm | ⟨hne, hm⟩)
        · exact Or.inr ⟨hh, Or.inl ⟨rfl, rfl⟩⟩
        · exact Or.inl hm
        · exact Or.inr ⟨hne, Or.inr hm⟩
      · rintro (hm | ⟨hne, ⟨rfl, rfl⟩ | hm⟩)
        · exact Or.inr (Or.inl hm)
        · exact Or.inl ⟨rfl, rfl⟩
        · exact Or.inr (Or.inr ⟨hne, hm⟩)

theorem run_blacklistOps (name : PreviewsType → String) (ops : List BlacklistOp)
    (s : PreviewsLogger) (hs : s.observer_list_ = []) :
    run name (ops.map BlacklistOp.toCall) s =
      some ({ s with blacklisted_hosts_ := ops.foldl applyBlacklistOp s.blacklisted_hosts_ },
        []) := by
  induction ops generalizing s with
  | nil => rfl
  | cons op rest ih =>
    cases op with
    | newHost host time =>
      have h1 := ih { s with blacklisted_hosts_ := hostsAssign s.blacklisted_hosts_ host time } hs
      simp only [List.map_cons, BlacklistOp.toCall, run, step, OnNewBlacklistedHost, hs,
        List.map_nil, List.nil_append, List.foldl_cons, applyBlacklistOp] at h1 ⊢
      rw [h1]
    | cleared time =>
      have h1 := ih { s with blacklisted_hosts_ := [] } hs
      simp only [List.map_cons, BlacklistOp.toCall, run, step, OnBlacklistCleared, hs,
        List.map_nil, List.nil_append, List.foldl_cons, applyBlacklistOp] at h1 ⊢
      rw [h1]

theorem foldl_applyBlacklistOp_spec (ops : List BlacklistOp) :
    ((ops.foldl applyBlacklistOp []).map Prod.fst).Nodup ∧
    ∀ host time, (host, time) ∈ ops.foldl applyBlacklistOp [] ↔
      lastReport ops host = some time := by
  induction ops using List.reverseRecOn with
  | nil => simp [lastReport, lastReportNewestFirst]
  | append_singleton ops op ih =>
    obtain ⟨hnd, hmem⟩ := ih
    rw [List.foldl_append]
    simp only [List.foldl_cons, List.foldl_nil, lastReport, List.reverse_append,
      List.reverse_cons, List.reverse_nil, List.nil_append, List.singleton_append]
    cases op with
    | newHost h t =>
      simp only [applyBlacklistOp, lastReportNewestFirst]
      refine ⟨nodupKeys_hostsAssign _ h t hnd, ?_⟩
      intro host time
      rw [mem_hostsAssign _ h t hnd]
      by_cases hh : h = host
      · subst hh
        simp only [if_true, Option.some.injEq, ne_eq, not_true_eq_false, false_and, or_false,
          true_and]
        exact eq_comm
      · have hh2 : ¬ host = h := fun x => hh x.symm
        simp only [if_neg hh, hh2, false_and, false_or, ne_eq, not_false_eq_true, true_and]
        exact hmem host time
    | cleared t =>
      simp [applyBlacklistOp, lastReportNewestFirst]

theorem hostEntriesTo_append (o : Observer) (t1 t2 : List Delivery) :
    hostEntriesTo o (t1 ++ t2) = hostEntriesTo o t1 ++ hostEntriesTo o t2 := by
  simp [hostEntriesTo, List.filterMap_append]

theorem hostEntriesTo_map_message (o : Observer) (s : PreviewsLogger) (ms : List MessageLog) :
    hostEntriesTo o (ms.map (fun m => Delivery.mk o (.OnNewMessageLogAdded m) s)) = [] := by
  induction ms with
  | nil => rfl
  | cons m ms ih =>
    simp only [hostEntriesTo, List.map_cons, List.filterMap_cons] at ih ⊢
    simp [ih]

theorem hostEntriesTo_map_host (o : Observer) (s : PreviewsLogger)
    (hs : List (String × Time)) :
    hostEntriesTo o (hs.map (fun e => Delivery.mk o (.OnNewBlacklistedHost e.1 e.2) s)) = hs := by
  induction hs with
  | nil => rfl
  | cons m ms ih =>
    simp only [hostEntriesTo, List.map_cons, List.filterMap_cons] at ih ⊢
    simp [ih]

theorem hostEntriesTo_AddAndNotifyObserver (o : Observer) (s : PreviewsLogger) :
    hostEntriesTo o (AddAndNotifyObserver o s).2 = s.blacklisted_hosts_ := by
  simp only [AddAndNotifyObserver, hostEntriesTo_append, hostEntriesTo_map_message,
    hostEntriesTo_map_host]
  simp [hostEntriesTo]

/-- C13: after any sequence of `OnNewBlacklistedHost` and
`OnBlacklistCleared` calls on a fresh logger, the `OnNewBlacklistedHost`
callbacks made on an observer that then attaches name every host at most once,
and `(host, time)` is among them exactly when `host` was reported since the
most recent clear and `time` is the time of its latest report; an attach right
after a clear gets no host entry, and a host reported twice is delivered once,
with the later time. -/
theorem C13_host_snapshot (name : PreviewsType → String) (ub : Bool)
    (ops : List BlacklistOp) (o : Observer) :
    (∃ s t, run name (ops.map BlacklistOp.toCall) (PreviewsLogger.fresh ub) = some (s, t) ∧
      ((hostEntriesTo o (AddAndNotifyObserver o s).2).map Prod.fst).Nodup ∧
      ∀ host time, (host, time) ∈ hostEntriesTo o (AddAndNotifyObserver o s).2 ↔
        lastReport ops host = some time) ∧
    (∀ t0, ∃ s t,
      run name ((ops ++ [BlacklistOp.cleared t0]).map BlacklistOp.toCall)
        (PreviewsLogger.fresh ub) = some (s, t) ∧
      hostEntriesTo o (AddAndNotifyObserver o s).2 = []) ∧
    (∀ host t1 t2, ∃ s t,
      run name ((ops ++ [BlacklistOp.cleared 0, BlacklistOp.newHost host t1,
          BlacklistOp.newHost host t2]).map BlacklistOp.toCall)
        (PreviewsLogger.fresh ub) = some (s, t) ∧
      hostEntriesTo o (AddAndNotifyObserver o s).2 = [(host, t2)]) := by
  refine ⟨?_, ?_, ?_⟩
  · refine ⟨_, _, run_blacklistOps name ops _ rfl, ?_⟩
    rw [hostEntriesTo_AddAndNotifyObserver]
    exact foldl_applyBlacklistOp_spec ops
  · intro t0
    refine ⟨_, _, run_blacklistOps name _ _ rfl, ?_⟩
    rw [hostEntriesTo_AddAndNotifyObserver]
    simp [List.foldl_append, applyBlacklistOp]
  · intro host t1 t2
    refine ⟨_, _, run_blacklistOps name _ _ rfl, ?_⟩
    rw [hostEntriesTo_AddAndNotifyObserver]
    simp [List.foldl_append, applyBlacklistOp, hostsAssign]

/-! ## C14 -/

theorem ite_ne_empty (c : Prop) [Decidable c] (a b : String) (ha : a ≠ "")
    (hb : ¬ c → b ≠ "") : (if c then a else b) ≠ "" := by
  by_cases h : c
  · rw [if_pos h]; exact ha
  · rw [if_neg h]; exact hb h

theorem reasonOrdinal_injective : Function.Injective reasonOrdinal := by
  intro a b h
  cases a <;> cases b <;> first | rfl | (simp [reasonOrdinal] at h)

/-- C14: for each of the twelve enumerators `GetReasonDescription` returns a
non-empty string from its own case.  Read on integer values: for the value of
any enumerator the `switch` returns from a case with a non-empty string, so
the `NOTREACHED` fallback with its empty string is not reached; with distinct
case labels the string is the one of that enumerator; only a value that is
no enumerator reaches the fallback. -/
theorem C14_reason_descriptions :
    (∀ r, GetReasonDescription r ≠ "") ∧
    (∀ (value : PreviewsEligibilityReason → Int) r,
      GetReasonDescriptionOfValue value (value r) ≠ "") ∧
    (∀ value : PreviewsEligibilityReason → Int, Function.Injective value →
      ∀ r, GetReasonDescriptionOfValue value (value r) = GetReasonDescription r) ∧
    (∀ (value : PreviewsEligibilityReason → Int) (v : Int), (∀ r, v ≠ value r) →
      GetReasonDescriptionOfValue value v = "") := by
  refine ⟨?_, ?_, ?_, ?_⟩
  · intro r
    cases r <;> simp [GetReasonDescription]
  · intro value r
    unfold GetReasonDescriptionOfValue
    refine ite_ne_empty _ _ _ (by decide) (fun h1 => ?_)
    refine ite_ne_empty _ _ _ (by decide) (fun h2 => ?_)
    refine ite_ne_empty _ _ _ (by decide) (fun h3 => ?_)
    refine ite_ne_empty _ _ _ (by decide) (fun h4 => ?_)
    refine ite_ne_empty _ _ _ (by decide) (fun h5 => ?_)
    refine ite_ne_empty _ _ _ (by decide) (fun h6 => ?_)
    refine ite_ne_empty _ _ _ (by decide) (fun h7 => ?_)
    refine ite_ne_empty _ _ _ (by decide) (fun h8 => ?_)
    refine ite_ne_empty _ _ _ (by decide) (fun h9 => ?_)
    refine ite_ne_empty _ _ _ (by decide) (fun h10 => ?_)
    refine ite_ne_empty _ _ _ (by decide) (fun h11 => ?_)
    refine ite_ne_empty _ _ _ (by decide) (fun h12 => ?_)
    cases r <;> contradiction
  · intro value hinj r
    simp only [GetReasonDescriptionOfValue, hinj.eq_iff]
    cases r <;> rfl
  · intro value v hv
    simp [GetReasonDescriptionOfValue, hv]

/-- Witness of C14: the enumerators numbered 0 to 11, and the value 12. -/
theorem C14_reason_descriptions_witness :
    Function.Injective reasonOrdinal ∧
    (∀ r, GetReasonDescriptionOfValue reasonOrdinal (reasonOrdinal r)
      = GetReasonDescription r) ∧
    (∀ r, (12 : Int) ≠ reasonOrdinal r) ∧
    GetReasonDescriptionOfValue reasonOrdinal 12 = "" :=
  ⟨reasonOrdinal_injective,
    C14_reason_descriptions.2.2.1 reasonOrdinal reasonOrdinal_injective,
    fun r => by cases r <;> simp [reasonOrdinal],
    C14_reason_descriptions.2.2.2 reasonOrdinal 12
      (fun r => by cases r <;> simp [reasonOrdinal])⟩

/-! ## C15 -/

theorem mergeLogs_interleaving (nav dec : List MessageLog) :
    Interleaving nav dec (mergeLogs nav dec) := by
  induction nav generalizing dec with
  | nil =>
    induction dec with
    | nil => rw [mergeLogs_nil_nil]; exact Interleaving.done
    | cons d ds ih => rw [mergeLogs_nil_cons]; exact Interleaving.decision d ih
  | cons n ns ihn =>
    induction dec with
    | nil => rw [mergeLogs_cons_nil]; exact Interleaving.navigation n (ihn [])
    | cons d ds ihd =>
      rw [mergeLogs_cons_cons]
      by_cases h : n.time < d.time
      · rw [if_pos h]; exact Interleaving.navigation n (ihn (d :: ds))
      · rw [if_neg h]; exact Interleaving.decision d ihd

theorem Interleaving.sublists {nav dec out : List MessageLog} (h : Interleaving nav dec out) :
    nav.Sublist out ∧ dec.Sublist out := by
  induction h with
  | done => exact ⟨List.Sublist.refl _, List.Sublist.refl _⟩
  | navigation m _ ih => exact ⟨ih.1.cons₂ m, ih.2.cons m⟩
  | decision m _ ih => exact ⟨ih.1.cons m, ih.2.cons₂ m⟩

theorem mergeLogs_nil_left (dec : List MessageLog) : mergeLogs [] dec = dec := by
  induction dec with
  | nil => exact mergeLogs_nil_nil
  | cons d ds ih => rw [mergeLogs_nil_cons, ih]

theorem mergeLogs_nil_right (nav : List MessageLog) : mergeLogs nav [] = nav := by
  induction nav with
  | nil => exact mergeLogs_nil_nil
  | cons n ns ih => rw [mergeLogs_cons_nil, ih]

theorem replayIterations_eq (count : Nat) (nav dec : List MessageLog)
    (h : nav.length + dec.length = count) :
    replayIterations count nav dec = (mergeLogs nav dec, [], []) := by
  induction count generalizing nav dec with
  | zero =>
    have hn : nav = [] := List.length_eq_zero.mp (by omega)
    have hd : dec = [] := List.length_eq_zero.mp (by omega)
    subst hn hd
    rw [mergeLogs_nil_nil]; rfl
  | succ k ih =>
    cases nav with
    | nil =>
      cases dec with
      | nil => simp at h
      | cons d ds =>
        have := ih [] ds (by simp only [List.length_cons, List.length_nil] at h ⊢; omega)
        simp [replayIterations, replayStep, this, mergeLogs_nil_cons]
    | cons n ns =>
      cases dec with
      | nil =>
        have := ih ns [] (by simp only [List.length_cons, List.length_nil] at h ⊢; omega)
        simp [replayIterations, replayStep, this, mergeLogs_cons_nil]
      | cons d ds =>
        by_cases hlt : n.time < d.time
        · have := ih ns (d :: ds) (by simp only [List.length_cons] at h ⊢; omega)
          simp [replayIterations, replayStep, this, mergeLogs_cons_cons, hlt]
        · have := ih (n :: ns) ds (by simp only [List.length_cons] at h ⊢; omega)
          simp [replayIterations, replayStep, this, mergeLogs_cons_cons, hlt]

/-- C15: for every logger state, sorted or not, the replay loop of
`AddAndNotifyObserver` ends after `n_nav + n_dec` iterations with both cursors
at the end; the records it delivers are `n_nav + n_dec` many, are an
interleaving of the two queues (every record of each queue once, each queue in
its stored order), and once one queue is exhausted the rest of the other is
delivered as stored. -/
theorem C15_replay_interleaving (s : PreviewsLogger) (o : Observer) :
    replayIterations (s.navigations_logs_.length + s.decisions_logs_.length)
        s.navigations_logs_ s.decisions_logs_
      = (messagesTo o (AddAndNotifyObserver o s).2, [], []) ∧
    replayStep [] [] = none ∧
    (messagesTo o (AddAndNotifyObserver o s).2).length =
      s.navigations_logs_.length + s.decisions_logs_.length ∧
    Interleaving s.navigations_logs_ s.decisions_logs_
      (messagesTo o (AddAndNotifyObserver o s).2) ∧
    (messagesTo o (AddAndNotifyObserver o s).2).Perm
      (s.navigations_logs_ ++ s.decisions_logs_) ∧
    s.navigations_logs_.Sublist (messagesTo o (AddAndNotifyObserver o s).2) ∧
    s.decisions_logs_.Sublist (messagesTo o (AddAndNotifyObserver o s).2) ∧
    (∀ rest, mergeLogs [] rest = rest) ∧ (∀ rest, mergeLogs rest [] = rest) := by
  rw [messagesTo_AddAndNotifyObserver]
  exact ⟨replayIterations_eq _ _ _ rfl, rfl, length_mergeLogs _ _,
    mergeLogs_interleaving _ _, mergeLogs_perm _ _,
    (mergeLogs_interleaving _ _).sublists.1, (mergeLogs_interleaving _ _).sublists.2,
    mergeLogs_nil_left, mergeLogs_nil_right⟩

/-! ## C16 -/

theorem c_str_of_no_nul (s : String) (h : Char.ofNat 0 ∉ s.data) : c_str s = s := by
  have htw : s.data.takeWhile (fun c => c != Char.ofNat 0) = s.data := by
    rw [List.takeWhile_eq_self_iff]
    intro c hc
    simp only [bne_iff_ne, ne_eq]
    intro heq
    exact h (heq ▸ hc)
  simp only [c_str, htw]

theorem c_str_GetReasonDescription (reason : PreviewsEligibilityReason) :
    c_str (GetReasonDescription reason) = GetReasonDescription reason := by
  apply c_str_of_no_nul
  cases reason <;> decide

theorem lofi_no_nul (type : PreviewsType) :
    Char.ofNat 0 ∉ ((fun _ => "LoFi") type : String).data := by
  show Char.ofNat 0 ∉ ("LoFi" : String).data
  decide

/-- C16: with a name table whose names contain no NUL character, and a state
within capacity, `LogPreviewNavigation url type opt_out time` broadcasts and
stores the record with category "Navigation", description `name type`
followed by " preview - user opt-out: " and "True" or "False", and the given
url and time; `LogPreviewDecisionMade reason url time type` broadcasts and
stores the record with category "Decision", description `name type`
followed by " preview - " and `GetReasonDescription reason`, and the given url
and time. -/
theorem C16_record_content (name : PreviewsType → String)
    (hname : ∀ type, Char.ofNat 0 ∉ (name type).data) (s : PreviewsLogger)
    (h : WithinCapacity s) :
    (∀ url type opt_out time, ∃ s1 t,
      LogPreviewNavigation name url type opt_out time s = some (s1, t) ∧
      calls t = s.observer_list_.map (fun o =>
        (o, Callback.OnNewMessageLogAdded
          (MessageLog.mk "Navigation"
            (name type ++ " preview - user opt-out: " ++ (if opt_out then "True" else "False"))
            url time))) ∧
      s1.navigations_logs_.getLast? =
        some (MessageLog.mk "Navigation"
          (name type ++ " preview - user opt-out: " ++ (if opt_out then "True" else "False"))
          url time)) ∧
    (∀ reason url time type, ∃ s1 t,
      LogPreviewDecisionMade name reason url time type s = some (s1, t) ∧
      calls t = s.observer_list_.map (fun o =>
        (o, Callback.OnNewMessageLogAdded
          (MessageLog.mk "Decision"
            (name type ++ " preview - " ++ GetReasonDescription reason) url time))) ∧
      s1.decisions_logs_.getLast? =
        some (MessageLog.mk "Decision"
          (name type ++ " preview - " ++ GetReasonDescription reason) url time)) := by
  refine ⟨?_, ?_⟩
  · intro url type opt_out time
    refine ⟨_, _, LogPreviewNavigation_of_le name url type opt_out time s h.1, ?_, ?_⟩
    · rw [calls_LogMessage]
      simp only [GetDescriptionForPreviewsNavigation, c_str_of_no_nul _ (hname type),
        kPreviewNavigationEventType]
    · simp [navigationRecord, GetDescriptionForPreviewsNavigation,
        c_str_of_no_nul _ (hname type), kPreviewNavigationEventType]
  · intro reason url time type
    refine ⟨_, _, LogPreviewDecisionMade_of_le name reason url time type s h.2, ?_, ?_⟩
    · rw [calls_LogMessage]
      simp only [GetDescriptionForPreviewsDecision, c_str_of_no_nul _ (hname type),
        c_str_GetReasonDescription, kPreviewDecisionMadeEventType]
    · simp [decisionRecord, GetDescriptionForPreviewsDecision,
        c_str_of_no_nul _ (hname type), c_str_GetReasonDescription,
        kPreviewDecisionMadeEventType]

/-- Witness of C16: the name "LoFi" for every type, on the logger with full
queues and observers 3 and 5; a navigation with opt-out and a decision
`NETWORK_NOT_SLOW`. -/
theorem C16_record_content_witness :
    (∀ type : PreviewsType, Char.ofNat 0 ∉ ((fun _ => "LoFi") type : String).data) ∧
    WithinCapacity fullExample ∧
    (∃ s1 t,
      LogPreviewNavigation (fun _ => "LoFi") "https://b.test/" 2 true 40 fullExample
        = some (s1, t) ∧
      calls t = fullExample.observer_list_.map (fun o =>
        (o, Callback.OnNewMessageLogAdded
          (MessageLog.mk "Navigation"
            ("LoFi" ++ " preview - user opt-out: " ++ (if true then "True" else "False"))
            "https://b.test/" 40))) ∧
      s1.navigations_logs_.getLast? =
        some (MessageLog.mk "Navigation"
          ("LoFi" ++ " preview - user opt-out: " ++ (if true then "True" else "False"))
          "https://b.test/" 40)) ∧
    (∃ s1 t,
      LogPreviewDecisionMade (fun _ => "LoFi") PreviewsEligibilityReason.NETWORK_NOT_SLOW
        "https://b.test/" 41 2 fullExample = some (s1, t) ∧
      calls t = fullExample.observer_list_.map (fun o =>
        (o, Callback.OnNewMessageLogAdded
          (MessageLog.mk "Decision"
            ("LoFi" ++ " preview - " ++
              GetReasonDescription PreviewsEligibilityReason.NETWORK_NOT_SLOW)
            "https://b.test/" 41))) ∧
      s1.decisions_logs_.getLast? =
        some (MessageLog.mk "Decision"
          ("LoFi" ++ " preview - " ++
            GetReasonDescription PreviewsEligibilityReason.NETWORK_NOT_SLOW)
          "https://b.test/" 41)) :=
  ⟨lofi_no_nul, fullExample_withinCapacity,
    (C16_record_content (fun _ => "LoFi") lofi_no_nul fullExample
      fullExample_withinCapacity).1 "https://b.test/" 2 true 40,
    (C16_record_content (fun _ => "LoFi") lofi_no_nul fullExample
      fullExample_withinCapacity).2 PreviewsEligibilityReason.NETWORK_NOT_SLOW
      "https://b.test/" 41 2⟩

/-! ## C17 -/

/-- C17: `RemoveObserver O` calls `OnLastObserverRemove` on `O` whenever the
registry is empty after the call, whether or not `O` was registered.  On a
logger with no observer, `RemoveObserver O` makes exactly that one callback
and leaves the logger as it was, and so does a second `RemoveObserver O`. -/
theorem C17_detach_unregistered (s : PreviewsLogger) (O : Observer) :
    ((RemoveObserver O s).1.observer_list_ = [] →
      calls (RemoveObserver O s).2 = [(O, Callback.OnLastObserverRemove)]) ∧
    (s.observer_list_ = [] →
      calls (RemoveObserver O s).2 = [(O, Callback.OnLastObserverRemove)] ∧
      (RemoveObserver O s).1 = s ∧
      calls (RemoveObserver O (RemoveObserver O s).1).2 = [(O, Callback.OnLastObserverRemove)] ∧
      (RemoveObserver O (RemoveObserver O s).1).1 = s) ∧
    (∀ ub,
      calls (RemoveObserver O
        (RemoveObserver O (AddAndNotifyObserver O (PreviewsLogger.fresh ub)).1).1).2
        = [(O, Callback.OnLastObserverRemove)]) := by
  refine ⟨?_, ?_, ?_⟩
  · intro he
    simp only [RemoveObserver] at he
    simp [RemoveObserver, he, calls]
  · intro he
    have h1 : (RemoveObserver O s).1 = s := by
      cases s
      simp only [RemoveObserver, RemoveObserverFromList] at he ⊢
      subst he
      rfl
    have h2 : calls (RemoveObserver O s).2 = [(O, Callback.OnLastObserverRemove)] := by
      simp [RemoveObserver, RemoveObserverFromList, he, calls]
    exact ⟨h2, h1, by rw [h1]; exact h2, by rw [h1]; exact h1⟩
  · intro ub
    simp [RemoveObserver, AddAndNotifyObserver, AddObserver, RemoveObserverFromList,
      PreviewsLogger.fresh, calls]

/-- Witness of C17: observer 7, never attached, is detached twice from a
fresh logger; and observer 5 is detached as the last one of the logger that
had observers 3 and 5. -/
theorem C17_detach_unregistered_witness :
    (PreviewsLogger.fresh false).observer_list_ = [] ∧
    calls (RemoveObserver 7 (PreviewsLogger.fresh false)).2
      = [(7, Callback.OnLastObserverRemove)] ∧
    (RemoveObserver 7 (PreviewsLogger.fresh false)).1 = PreviewsLogger.fresh false ∧
    calls (RemoveObserver 7 (RemoveObserver 7 (PreviewsLogger.fresh false)).1).2
      = [(7, Callback.OnLastObserverRemove)] ∧
    (RemoveObserver 7 (RemoveObserver 7 (PreviewsLogger.fresh false)).1).1
      = PreviewsLogger.fresh false ∧
    (RemoveObserver 5 (RemoveObserver 3 fullExample).1).1.observer_list_ = [] ∧
    calls (RemoveObserver 5 (RemoveObserver 3 fullExample).1).2
      = [(5, Callback.OnLastObserverRemove)] :=
  ⟨rfl, ((C17_detach_unregistered (PreviewsLogger.fresh false) 7).2.1 rfl).1,
    ((C17_detach_unregistered (PreviewsLogger.fresh false) 7).2.1 rfl).2.1,
    ((C17_detach_unregistered (PreviewsLogger.fresh false) 7).2.1 rfl).2.2.1,
    ((C17_detach_unregistered (PreviewsLogger.fresh false) 7).2.1 rfl).2.2.2, by decide,
    (C17_detach_unregistered (RemoveObserver 3 fullExample).1 5).1 (by decide)⟩

/-! ## C18 -/

theorem messagesTo_eq_messagesIn (o : Observer) (t : List Delivery) :
    messagesTo o t = messagesIn o (calls t) := by
  simp only [messagesTo, messagesIn, calls, List.filterMap_map]
  rfl

theorem calls_append (t1 t2 : List Delivery) : calls (t1 ++ t2) = calls t1 ++ calls t2 := by
  simp [calls]

theorem mergeLogs_navigation_first (n : MessageLog) (ns ds : List MessageLog)
    (h : ∀ d ∈ ds, n.time < d.time) : mergeLogs (n :: ns) ds = n :: mergeLogs ns ds := by
  cases ds with
  | nil => exact mergeLogs_cons_nil n ns
  | cons d ds => rw [mergeLogs_cons_cons, if_pos (h d (List.mem_cons_self _ _))]

theorem mergeLogs_decision_first (d : MessageLog) (ns ds : List MessageLog)
    (h : ∀ n ∈ ns, d.time < n.time) : mergeLogs ns (d :: ds) = d :: mergeLogs ns ds := by
  cases ns with
  | nil => exact mergeLogs_nil_cons d ds
  | cons n ns =>
    rw [mergeLogs_cons_cons, if_neg (not_lt_of_gt (h n (List.mem_cons_self _ _)))]

theorem time_of_mem_navigationArgsOf (name : PreviewsType → String) (cs : List LogArgs)
    (m : MessageLog) (hm : m ∈ (navigationArgsOf cs).map (navigationRecord name)) :
    ∃ c ∈ cs, logTime c = m.time := by
  induction cs with
  | nil => simp [navigationArgsOf] at hm
  | cons c rest ih =>
    cases c with
    | inl a =>
      simp only [navigationArgsOf, List.map_cons, List.mem_cons] at hm
      rcases hm with rfl | hm
      · exact ⟨.inl a, List.mem_cons_self _ _, rfl⟩
      · obtain ⟨c, hc, ht⟩ := ih hm
        exact ⟨c, List.mem_cons_of_mem _ hc, ht⟩
    | inr a =>
      simp only [navigationArgsOf] at hm
      obtain ⟨c, hc, ht⟩ := ih hm
      exact ⟨c, List.mem_cons_of_mem _ hc, ht⟩

theorem time_of_mem_decisionArgsOf (name : PreviewsType → String) (cs : List LogArgs)
    (m : MessageLog) (hm : m ∈ (decisionArgsOf cs).map (decisionRecord name)) :
    ∃ c ∈ cs, logTime c = m.time := by
  induction cs with
  | nil => simp [decisionArgsOf] at hm
  | cons c rest ih =>
    cases c with
    | inl a =>
      simp only [decisionArgsOf] at hm
      obtain ⟨c, hc, ht⟩ := ih hm
      exact ⟨c, List.mem_cons_of_mem _ hc, ht⟩
    | inr a =>
      simp only [decisionArgsOf, List.map_cons, List.mem_cons] at hm
      rcases hm with rfl | hm
      · exact ⟨.inr a, List.mem_cons_self _ _, rfl⟩
      · obtain ⟨c, hc, ht⟩ := ih hm
        exact ⟨c, List.mem_cons_of_mem _ hc, ht⟩

theorem mergeLogs_of_increasing (name : PreviewsType → String) (cs : List LogArgs)
    (h : (cs.map logTime).Pairwise (fun a b => a < b)) :
    mergeLogs ((navigationArgsOf cs).map (navigationRecord name))
        ((decisionArgsOf cs).map (decisionRecord name))
      = cs.map (logRecord name) := by
  induction cs with
  | nil => exact mergeLogs_nil_nil
  | cons c rest ih =>
    rw [List.map_cons, List.pairwise_cons] at h
    have hlt : ∀ c2 ∈ rest, logTime c < logTime c2 :=
      fun c2 hc2 => h.1 _ (List.mem_map_of_mem logTime hc2)
    cases c with
    | inl a =>
      simp only [navigationArgsOf, decisionArgsOf, List.map_cons, logRecord]
      rw [mergeLogs_navigation_first, ih h.2]
      intro d hd
      obtain ⟨c2, hc2, ht⟩ := time_of_mem_decisionArgsOf name rest d hd
      rw [← ht]
      exact hlt c2 hc2
    | inr a =>
      simp only [navigationArgsOf, decisionArgsOf, List.map_cons, logRecord]
      rw [mergeLogs_decision_first, ih h.2]
      intro n hn
      obtain ⟨c2, hc2, ht⟩ := time_of_mem_navigationArgsOf name rest n hn
      rw [← ht]
      exact hlt c2 hc2

theorem run_logCalls (name : PreviewsType → String) (cs : List LogArgs) (s : PreviewsLogger)
    (hn : s.navigations_logs_.length + (navigationArgsOf cs).length ≤ kMaximumNavigationLogs)
    (hd : s.decisions_logs_.length + (decisionArgsOf cs).length ≤ kMaximumDecisionLogs) :
    ∃ t, run name (cs.map logCall) s =
        some ({ s with
                navigations_logs_ :=
                  s.navigations_logs_ ++ (navigationArgsOf cs).map (navigationRecord name)
                decisions_logs_ :=
                  s.decisions_logs_ ++ (decisionArgsOf cs).map (decisionRecord name) }, t) ∧
      calls t = fanOut s.observer_list_ (cs.map (logRecord name)) := by
  induction cs generalizing s with
  | nil =>
    refine ⟨[], ?_, rfl⟩
    simp [run, navigationArgsOf, decisionArgsOf]
  | cons c rest ih =>
    cases c with
    | inl a =>
      obtain ⟨url, type, opt_out, time⟩ := a
      simp only [navigationArgsOf, List.length_cons, kMaximumNavigationLogs] at hn
      simp only [decisionArgsOf] at hd
      have hlt : ¬ s.navigations_logs_.length ≥ kMaximumNavigationLogs := by
        simp only [kMaximumNavigationLogs]; omega
      have hstep := LogPreviewNavigation_of_le name url type opt_out time s
        (by simp only [kMaximumNavigationLogs]; omega)
      rw [if_neg hlt] at hstep
      obtain ⟨t1, hrun, hcalls⟩ := ih
        { s with navigations_logs_ :=
            s.navigations_logs_ ++ [navigationRecord name (url, type, opt_out, time)] }
        (by simp only [List.length_append, List.length_singleton, kMaximumNavigationLogs]
            omega) hd
      refine ⟨LogMessage s kPreviewNavigationEventType
        (GetDescriptionForPreviewsNavigation name type opt_out) url time ++ t1, ?_, ?_⟩
      · simp only [List.map_cons, logCall, navigationCall, run, step, hstep, hrun]
        simp [navigationArgsOf, decisionArgsOf, List.append_assoc]
      · rw [calls_append, calls_LogMessage, hcalls]
        rfl
    | inr a =>
      obtain ⟨reason, url, time, type⟩ := a
      simp only [decisionArgsOf, List.length_cons, kMaximumDecisionLogs] at hd
      simp only [navigationArgsOf] at hn
      have hlt : ¬ s.decisions_logs_.length ≥ kMaximumDecisionLogs := by
        simp only [kMaximumDecisionLogs]; omega
      have hstep := LogPreviewDecisionMade_of_le name reason url time type s
        (by simp only [kMaximumDecisionLogs]; omega)
      rw [if_neg hlt] at hstep
      obtain ⟨t1, hrun, hcalls⟩ := ih
        { s with decisions_logs_ :=
            s.decisions_logs_ ++ [decisionRecord name (reason, url, time, type)] } hn
        (by simp only [List.length_append, List.length_singleton, kMaximumDecisionLogs]
            omega)
      refine ⟨LogMessage s kPreviewDecisionMadeEventType
        (GetDescriptionForPreviewsDecision name reason type) url time ++ t1, ?_, ?_⟩
      · simp only [List.map_cons, logCall, decisionCall, run, step, hstep, hrun]
        simp [navigationArgsOf, decisionArgsOf, List.append_assoc]
      · rw [calls_append, calls_LogMessage, hcalls]
        rfl

theorem messagesIn_fanOut_single (o : Observer) (ms : List MessageLog) :
    messagesIn o (fanOut [o] ms) = ms := by
  induction ms with
  | nil => rfl
  | cons m ms ih =>
    simp only [messagesIn, fanOut, List.map_cons, List.map_nil, List.singleton_append,
      List.filterMap_cons] at ih ⊢
    simp [ih]

theorem messagesIn_fanOut_nil (o : Observer) (ms : List MessageLog) :
    messagesIn o (fanOut [] ms) = [] := by
  induction ms with
  | nil => rfl
  | cons m ms ih => simpa [fanOut] using ih

/-- C18: for log calls on a fresh logger with strictly increasing times, at
most 10 of them navigations and at most 25 decisions, the records replayed to
an observer attached after the calls are the records an observer attached
before the calls got live: in both cases the records of the calls, in call
order. -/
theorem C18_live_replay_agreement (name : PreviewsType → String) (ub : Bool)
    (cs : List LogArgs) (A B : Observer)
    (htime : (cs.map logTime).Pairwise (fun a b => a < b))
    (hn : (navigationArgsOf cs).length ≤ 10) (hd : (decisionArgsOf cs).length ≤ 25) :
    ∃ sA tA sB tB,
      run name (Call.AddAndNotifyObserver A :: cs.map logCall) (PreviewsLogger.fresh ub)
        = some (sA, tA) ∧
      run name (cs.map logCall ++ [Call.AddAndNotifyObserver B]) (PreviewsLogger.fresh ub)
        = some (sB, tB) ∧
      messagesTo A tA = cs.map (logRecord name) ∧
      messagesTo B tB = cs.map (logRecord name) ∧
      messagesTo B tB = messagesTo A tA := by
  obtain ⟨t1, hrun1, hcalls1⟩ := run_logCalls name cs
    (AddAndNotifyObserver A (PreviewsLogger.fresh ub)).1
    (by simpa [AddAndNotifyObserver, PreviewsLogger.fresh, kMaximumNavigationLogs] using hn)
    (by simpa [AddAndNotifyObserver, PreviewsLogger.fresh, kMaximumDecisionLogs] using hd)
  obtain ⟨t2, hrun2, hcalls2⟩ := run_logCalls name cs (PreviewsLogger.fresh ub)
    (by simpa [PreviewsLogger.fresh, kMaximumNavigationLogs] using hn)
    (by simpa [PreviewsLogger.fresh, kMaximumDecisionLogs] using hd)
  have hA : messagesTo A ((AddAndNotifyObserver A (PreviewsLogger.fresh ub)).2 ++ t1)
      = cs.map (logRecord name) := by
    rw [messagesTo_append, messagesTo_AddAndNotifyObserver, messagesTo_eq_messagesIn, hcalls1]
    have hobs : (AddAndNotifyObserver A (PreviewsLogger.fresh ub)).1.observer_list_ = [A] := by
      simp [AddAndNotifyObserver, AddObserver, PreviewsLogger.fresh]
    rw [hobs, messagesIn_fanOut_single]
    simp [PreviewsLogger.fresh, mergeLogs_nil_nil]
  have hB : messagesTo B (t2 ++ ((AddAndNotifyObserver B
        { PreviewsLogger.fresh ub with
          navigations_logs_ := (PreviewsLogger.fresh ub).navigations_logs_ ++
            (navigationArgsOf cs).map (navigationRecord name)
          decisions_logs_ := (PreviewsLogger.fresh ub).decisions_logs_ ++
            (decisionArgsOf cs).map (decisionRecord name) }).2 ++ []))
      = cs.map (logRecord name) := by
    rw [messagesTo_append, List.append_nil, messagesTo_AddAndNotifyObserver,
      messagesTo_eq_messagesIn, hcalls2]
    have hobs : (PreviewsLogger.fresh ub).observer_list_ = [] := rfl
    rw [hobs, messagesIn_fanOut_nil]
    simp only [PreviewsLogger.fresh, List.nil_append]
    exact mergeLogs_of_increasing name cs htime
  have hrunA : ∃ sA, run name (Call.AddAndNotifyObserver A :: cs.map logCall)
      (PreviewsLogger.fresh ub)
        = some (sA, (AddAndNotifyObserver A (PreviewsLogger.fresh ub)).2 ++ t1) := by
    simp only [run, step, hrun1]
    exact ⟨_, rfl⟩
  obtain ⟨sA, hrunA⟩ := hrunA
  exact ⟨sA, _, _, _, hrunA, run_append name _ _ _ _ _ _ _ hrun2 rfl, hA, hB,
    hB.trans hA.symm⟩

/-- Witness of C18: a decision at time 1, a navigation at time 2 and a
decision at time 3; observer 3 attached before them, observer 5 after. -/
theorem C18_live_replay_agreement_witness :
    (liveExample.map logTime).Pairwise (fun a b => a < b) ∧
    (navigationArgsOf liveExample).length ≤ 10 ∧ (decisionArgsOf liveExample).length ≤ 25 ∧
    ∃ sA tA sB tB,
      run (fun _ => "LoFi") (Call.AddAndNotifyObserver 3 :: liveExample.map logCall)
        (PreviewsLogger.fresh false) = some (sA, tA) ∧
      run (fun _ => "LoFi") (liveExample.map logCall ++ [Call.AddAndNotifyObserver 5])
        (PreviewsLogger.fresh false) = some (sB, tB) ∧
      messagesTo 3 tA = liveExample.map (logRecord (fun _ => "LoFi")) ∧
      messagesTo 5 tB = liveExample.map (logRecord (fun _ => "LoFi")) ∧
      messagesTo 5 tB = messagesTo 3 tA :=
  ⟨by decide, by decide, by decide,
    C18_live_replay_agreement (fun _ => "LoFi") false liveExample 3 5 (by decide) (by decide)
      (by decide)⟩

/-! ## C19 -/

/-- C19: in a state within capacity, `LogPreviewNavigation` returns a state
that differs from the old one in the navigation queue only, and
`LogPreviewDecisionMade` one that differs in the decision queue only; each of
the four blacklist mutations leaves both queues and the observer registry as
they were (and changes only its own part of the blacklist state). -/
theorem C19_recording_frame (name : PreviewsType → String) (s : PreviewsLogger)
    (h : WithinCapacity s) :
    (∀ url type opt_out time, ∃ s1 t,
      LogPreviewNavigation name url type opt_out time s = some (s1, t) ∧
      s1.decisions_logs_ = s.decisions_logs_ ∧
      s1.blacklisted_hosts_ = s.blacklisted_hosts_ ∧
      s1.user_blacklisted_status_ = s.user_blacklisted_status_ ∧
      s1.blacklist_ignored_ = s.blacklist_ignored_ ∧
      s1.observer_list_ = s.observer_list_) ∧
    (∀ reason url time type, ∃ s1 t,
      LogPreviewDecisionMade name reason url time type s = some (s1, t) ∧
      s1.navigations_logs_ = s.navigations_logs_ ∧
      s1.blacklisted_hosts_ = s.blacklisted_hosts_ ∧
      s1.user_blacklisted_status_ = s.user_blacklisted_status_ ∧
      s1.blacklist_ignored_ = s.blacklist_ignored_ ∧
      s1.observer_list_ = s.observer_list_) ∧
    (∀ host time,
      (OnNewBlacklistedHost host time s).1 =
        { s with blacklisted_hosts_ := (OnNewBlacklistedHost host time s).1.blacklisted_hosts_ }) ∧
    (∀ blacklisted,
      (OnUserBlacklistedStatusChange blacklisted s).1 =
        { s with user_blacklisted_status_ := blacklisted }) ∧
    (∀ time, (OnBlacklistCleared time s).1 = { s with blacklisted_hosts_ := [] }) ∧
    (∀ ignored,
      (OnIgnoreBlacklistDecisionStatusChanged ignored s).1 =
        { s with blacklist_ignored_ := ignored }) := by
  refine ⟨?_, ?_, fun _ _ => rfl, fun _ => rfl, fun _ => rfl, fun _ => rfl⟩
  · intro url type opt_out time
    exact ⟨_, _, LogPreviewNavigation_of_le name url type opt_out time s h.1,
      rfl, rfl, rfl, rfl, rfl⟩
  · intro reason url time type
    exact ⟨_, _, LogPreviewDecisionMade_of_le name reason url time type s h.2,
      rfl, rfl, rfl, rfl, rfl⟩

/-- Witness of C19: a navigation call and a decision call on the logger with
full queues. -/
theorem C19_recording_frame_witness :
    WithinCapacity fullExample ∧
    (∃ s1 t,
      LogPreviewNavigation (fun _ => "LoFi") "https://b.test/" 2 true 40 fullExample
        = some (s1, t) ∧
      s1.decisions_logs_ = fullExample.decisions_logs_ ∧
      s1.blacklisted_hosts_ = fullExample.blacklisted_hosts_ ∧
      s1.user_blacklisted_status_ = fullExample.user_blacklisted_status_ ∧
      s1.blacklist_ignored_ = fullExample.blacklist_ignored_ ∧
      s1.observer_list_ = fullExample.observer_list_) ∧
    (∃ s1 t,
      LogPreviewDecisionMade (fun _ => "LoFi") PreviewsEligibilityReason.HOST_BLACKLISTED
        "https://b.test/" 41 2 fullExample = some (s1, t) ∧
      s1.navigations_logs_ = fullExample.navigations_logs_ ∧
      s1.blacklisted_hosts_ = fullExample.blacklisted_hosts_ ∧
      s1.user_blacklisted_status_ = fullExample.user_blacklisted_status_ ∧
      s1.blacklist_ignored_ = fullExample.blacklist_ignored_ ∧
      s1.observer_list_ = fullExample.observer_list_) :=
  ⟨fullExample_withinCapacity,
    (C19_recording_frame (fun _ => "LoFi") fullExample fullExample_withinCapacity).1
      "https://b.test/" 2 true 40,
    (C19_recording_frame (fun _ => "LoFi") fullExample fullExample_withinCapacity).2.1
      PreviewsEligibilityReason.HOST_BLACKLISTED "https://b.test/" 41 2⟩

/-! ## C20 -/

/-- C20: `AddAndNotifyObserver O` changes nothing but the observer registry;
so when `O2` attaches right after `O1`, the callbacks made on `O2` are, call by
call and in the same order, those made on `O1`: the same records, the same
two flag values and the same host entries. -/
theorem C20_attach_read_only (s : PreviewsLogger) (O1 O2 : Observer) :
    (AddAndNotifyObserver O1 s).1 =
      { s with observer_list_ := AddObserver s.observer_list_ O1 } ∧
    (AddAndNotifyObserver O1 s).1.navigations_logs_ = s.navigations_logs_ ∧
    (AddAndNotifyObserver O1 s).1.decisions_logs_ = s.decisions_logs_ ∧
    (AddAndNotifyObserver O1 s).1.blacklisted_hosts_ = s.blacklisted_hosts_ ∧
    (AddAndNotifyObserver O1 s).1.user_blacklisted_status_ = s.user_blacklisted_status_ ∧
    (AddAndNotifyObserver O1 s).1.blacklist_ignored_ = s.blacklist_ignored_ ∧
    (calls (AddAndNotifyObserver O2 (AddAndNotifyObserver O1 s).1).2).map Prod.snd =
      (calls (AddAndNotifyObserver O1 s).2).map Prod.snd ∧
    messagesTo O2 (AddAndNotifyObserver O2 (AddAndNotifyObserver O1 s).1).2 =
      messagesTo O1 (AddAndNotifyObserver O1 s).2 ∧
    hostEntriesTo O2 (AddAndNotifyObserver O2 (AddAndNotifyObserver O1 s).1).2 =
      hostEntriesTo O1 (AddAndNotifyObserver O1 s).2 := by
  refine ⟨rfl, rfl, rfl, rfl, rfl, rfl, ?_, ?_, ?_⟩
  · rw [calls_AddAndNotifyObserver, calls_AddAndNotifyObserver]
    simp only [List.map_append, List.map_map, List.map_cons, List.map_nil]
    rfl
  · rw [messagesTo_AddAndNotifyObserver, messagesTo_AddAndNotifyObserver]
    rfl
  · rw [hostEntriesTo_AddAndNotifyObserver, hostEntriesTo_AddAndNotifyObserver]
    rfl

end previews
